import Mathlib

/-!
Payment gateway: queue, selector, ledger and summary.

A shallow embedding of the Go sources of the payment gateway
(`internal/schemas`, `internal/providers`, `internal/datatypes`,
`internal/services`, `cmd/worker`, `cmd/server`) and the properties of the
processing pipeline proved about it.

Conventions of the embedding.

* Go strings are lists of characters (`GoString`).
* The float64 operations that the program calls in the Go runtime and standard
  library (addition, comparison, conversion from int64, `%.2f`, the shortest
  `f` rendering, `strconv.ParseFloat`) are the fields of a `Float64Lib`; every
  general theorem holds for all interpretations of these fields.  `Fixed2` is an
  exact two-decimal interpretation on which the examples are evaluated.
* For the member encoding, float64 values are modelled exactly (`Float64`),
  with the `%.2f` rendering and with `ParseFloat` on decimal texts as Go
  computes them (`GoDecimal`): exact decimal rounding, ties to even, and IEEE
  754 rounding to the nearest float64.
* The Redis store is explicit state (`Store`): the stream `payments`, the
  sorted set `payments-summary` and the string key `provider` with its expiry.
  Every store command is taken to succeed.
* The outside world of one handler run is an `Env`: the Redis clock, the
  reading of `time.Now()` and the replies of the two processors.
* Every function returns, next to its result, the list of effects it performed
  (`Event`), so that "no health poll", "exactly one append" are statements
  about that list.
-/

namespace PaymentGateway

/-! ## Basic types -/

/-- Go strings, kept as character lists. -/
abbrev GoString := List Char

/-- Two's complement wrap of an integer into the int64 range. -/
def wrapInt64 (x : Int) : Int :=
  (x + 9223372036854775808) % 18446744073709551616 - 9223372036854775808

/-- A `time.Time` instant: seconds since the Unix epoch and nanoseconds within
the second. -/
structure Time where
  sec : Int
  nsec : Nat
deriving DecidableEq

/-- The zero `time.Time` (January 1, year 1, 00:00:00 UTC). -/
def Time.zero : Time := ⟨-62135596800, 0⟩

/-- `Time.IsZero`. -/
def Time.IsZero (t : Time) : Bool :=
  decide (t.sec = -62135596800) && decide (t.nsec = 0)

/-- `Time.UnixMicro`: `unixSec*1e6 + nsec/1e3` in int64 arithmetic. -/
def Time.UnixMicro (t : Time) : Int :=
  wrapInt64 (t.sec * 1000000 + ((t.nsec / 1000 : Nat) : Int))

/-- The float64 primitives used by the program. -/
structure Float64Lib (F : Type) where
  /-- The constant `0.0`. -/
  zero : F
  /-- Float addition (`+=` on `TotalAmount`). -/
  add : F → F → F
  /-- Float comparison `≤`, as Redis compares scores. -/
  le : F → F → Bool
  /-- The conversion `float64(x)` of an int64, also the value Redis reads from
  the decimal text of an integer. -/
  ofInt64 : Int → F
  /-- The rendering `%.2f` of `fmt`. -/
  fmt2 : F → GoString
  /-- The rendering `strconv.AppendFloat(_, x, 'f', -1, 64)` used by the Redis
  client for float arguments. -/
  fmtShortest : F → GoString
  /-- The function `strconv.ParseFloat(_, 64)`; `none` when it returns an error. -/
  parseFloat : GoString → Option F

/-! ## internal/schemas -/

/-- The struct `schemas.PaymentRequest`. -/
structure PaymentRequest (F : Type) where
  CorrelationId : GoString
  Amount : F
  Retry : Int

/-- The struct `schemas.PaymentSummary`. -/
structure PaymentSummary (F : Type) where
  TotalRequests : Nat
  TotalAmount : F
deriving DecidableEq

/-- The struct `schemas.PaymentSummaryResponse`. -/
structure PaymentSummaryResponse (F : Type) where
  Default : PaymentSummary F
  Fallback : PaymentSummary F
deriving DecidableEq

/-- The struct `schemas.PaymentDetails`. -/
structure PaymentDetails (F : Type) where
  CorrelationID : GoString
  Amount : F
  Provider : GoString
  ProcessedAt : Time

/-- `PaymentDetails.MarshalBinary`: the text `"%s:%.2f:%s"` of correlation id,
amount and provider. -/
def MarshalBinary {F : Type} (L : Float64Lib F) (p : PaymentDetails F) : GoString :=
  p.CorrelationID ++ ':' :: (L.fmt2 p.Amount ++ ':' :: p.Provider)

/-- `strings.Split(s, sep)` for a one-character separator. -/
def stringsSplit (sep : Char) : GoString → List GoString
  | [] => [[]]
  | c :: cs =>
    if c = sep then [] :: stringsSplit sep cs
    else
      match stringsSplit sep cs with
      | [] => [[c]]
      | p :: ps => (c :: p) :: ps

/-- The errors of `FromStringToPaymentDetails`. -/
inductive DecodeError where
  | invalidFormat
  | invalidAmount
deriving DecidableEq

/-- The zero value `PaymentDetails{}`. -/
def PaymentDetails.empty {F : Type} (L : Float64Lib F) : PaymentDetails F :=
  ⟨[], L.zero, [], Time.zero⟩

/-- `FromStringToPaymentDetails`: the decoded record and the error, the record
being `PaymentDetails{}` when there is an error. -/
def FromStringToPaymentDetails {F : Type} (L : Float64Lib F) (s : GoString) :
    PaymentDetails F × Option DecodeError :=
  match stringsSplit ':' s with
  | [p0, p1, p2] =>
    match L.parseFloat p1 with
    | none => (PaymentDetails.empty L, some DecodeError.invalidAmount)
    | some amount => (⟨p0, amount, p2, Time.zero⟩, none)
  | _ => (PaymentDetails.empty L, some DecodeError.invalidFormat)

/-! ## internal/providers -/

/-- The struct `providers.ProviderHealthCheckResponse`. -/
structure ProviderHealthCheckResponse where
  Failing : Bool
  MinResponseTime : Int
deriving DecidableEq

/-- The provider client `providers.Provider` (the HTTP client is the `Env`). -/
structure Provider where
  id : GoString
  url : GoString
deriving DecidableEq

/-- `Provider.GetID`. -/
def Provider.GetID (p : Provider) : GoString := p.id

def DefaultProviderURL : GoString := "http://payment-processor-default:8080".toList

def FallbackProviderURL : GoString := "http://payment-processor-fallback:8080".toList

/-- The reply of a processor to one HTTP request: the status code and, for the
health endpoint, the body decoded as JSON (`none` when it does not decode). -/
structure HttpResponse where
  status : Nat
  health : Option ProviderHealthCheckResponse

/-- The errors `doRequest` returns. -/
inductive ProviderError where
  | transport
  | unprocessableEntity
  | unexpectedStatus (code : Nat)
  | decode
deriving DecidableEq

/-- The outside world of one run of a handler. -/
structure Env where
  /-- The clock of the Redis server, in milliseconds. -/
  redisNow : Nat
  /-- The reading of `time.Now().UTC()` in `Provider.ProcessPayment`. -/
  now : Time
  /-- The reply to `POST /payments`; `none` is a transport error or timeout. -/
  payReply : Provider → Option HttpResponse
  /-- The reply to `GET /payments/service-health`. -/
  healthReply : Provider → Option HttpResponse

/-- `Provider.doRequest`: `wantBody` says that a response value was passed. -/
def doRequest (reply : Option HttpResponse) (wantBody : Bool) :
    Except ProviderError (Option ProviderHealthCheckResponse) :=
  match reply with
  | none => Except.error ProviderError.transport
  | some resp =>
    if resp.status = 422 then Except.error ProviderError.unprocessableEntity
    else if resp.status ≠ 200 then Except.error (ProviderError.unexpectedStatus resp.status)
    else if wantBody then
      match resp.health with
      | none => Except.error ProviderError.decode
      | some h => Except.ok (some h)
    else Except.ok none

/-- `Provider.ProcessPayment`: the instant is read before the request is sent
and returned when the request succeeds. -/
def Provider.ProcessPayment {F : Type} (env : Env) (p : Provider) (_payment : PaymentRequest F) :
    Except ProviderError Time :=
  let requestedAt := env.now
  match doRequest (env.payReply p) false with
  | Except.error e => Except.error e
  | Except.ok _ => Except.ok requestedAt

/-- `Provider.HealthCheck`: the response value starts as the zero struct and is
filled by `doRequest`. -/
def Provider.HealthCheck (env : Env) (p : Provider) :
    Except ProviderError ProviderHealthCheckResponse :=
  match doRequest (env.healthReply p) true with
  | Except.error e => Except.error e
  | Except.ok none => Except.ok ⟨false, 0⟩
  | Except.ok (some h) => Except.ok h

/-! ## The Redis store -/

/-- One record of the stream `payments`: the field values as Redis keeps them,
as text. -/
structure StreamMsg where
  correlationId : GoString
  amount : GoString
  retry : GoString
deriving DecidableEq

/-- The state of the Redis server: the records of the stream `payments` not
yet delivered to the consumer group, in order of publication; the sorted set
`payments-summary` as its (score, member) entries in score order; the string
key `provider` with its value and the instant, in milliseconds, it expires. -/
structure Store (F : Type) where
  stream : List StreamMsg
  ledger : List (F × GoString)
  cache : Option (GoString × Nat)

/-- The effects of the program on the store and on the processors. -/
inductive Event (F : Type) where
  | cacheGet
  | healthCheck (id : GoString)
  | cacheSet (value : GoString) (ttlMillis : Nat)
  | submit (id : GoString) (payment : PaymentRequest F)
  | xadd (msg : StreamMsg)
  | zadd (score : F) (member : GoString)

def Event.isHealthCheck {F : Type} : Event F → Bool
  | Event.healthCheck _ => true
  | _ => false

def Event.isCacheSet {F : Type} : Event F → Bool
  | Event.cacheSet _ _ => true
  | _ => false

def Event.isSubmit {F : Type} : Event F → Bool
  | Event.submit _ _ => true
  | _ => false

def Event.isXAdd {F : Type} : Event F → Bool
  | Event.xadd _ => true
  | _ => false

def Event.isZAdd {F : Type} : Event F → Bool
  | Event.zadd _ _ => true
  | _ => false

/-- Redis `GET provider` as the program reads it: the value, or the empty
string when the key is absent or expired (the error is discarded). -/
def cacheGet (now : Nat) (cache : Option (GoString × Nat)) : GoString :=
  match cache with
  | none => []
  | some (v, expiresAt) => if now < expiresAt then v else []

/-- Redis `SET provider v PX ttl`. -/
def cacheSet (now : Nat) (v : GoString) (ttlMillis : Nat) : Option (GoString × Nat) :=
  some (v, now + ttlMillis)

/-- The order of a sorted set: by score, members of equal score in
lexicographic order. -/
def zless {F : Type} (L : Float64Lib F) (a b : F × GoString) : Bool :=
  (L.le a.1 b.1 && !L.le b.1 a.1) || (L.le a.1 b.1 && L.le b.1 a.1 && decide (a.2 < b.2))

/-- Insertion of an entry at its place in score order. -/
def zinsert {F : Type} (L : Float64Lib F) (x : F × GoString) : List (F × GoString) → List (F × GoString)
  | [] => [x]
  | y :: ys => if zless L x y then x :: y :: ys else y :: zinsert L x ys

/-- Redis `ZADD key score member`: the member is the identity of an element,
so an element with this member is replaced, its score updated. -/
def ZAdd {F : Type} (L : Float64Lib F) (ledger : List (F × GoString)) (score : F)
    (member : GoString) : List (F × GoString) :=
  zinsert L (score, member) (ledger.filter (fun e => decide (e.2 ≠ member)))

/-- The struct `redis.ZRangeBy` as the program fills it: `none` is the text
`"-inf"` of `Min` and `"+inf"` of `Max`, `some v` the text `"%d"` of `v`. -/
structure ZRangeBy where
  Min : Option Int
  Max : Option Int
deriving DecidableEq

/-- Whether a score is within the inclusive bounds of a range. -/
def ZRangeBy.contains {F : Type} (L : Float64Lib F) (r : ZRangeBy) (score : F) : Bool :=
  (match r.Min with
   | none => true
   | some lo => L.le (L.ofInt64 lo) score) &&
  (match r.Max with
   | none => true
   | some hi => L.le score (L.ofInt64 hi))

/-- Redis `ZRANGEBYSCORE key min max`: the members whose score is within the
bounds, in the order of the set. -/
def ZRangeByScore {F : Type} (L : Float64Lib F) (ledger : List (F × GoString)) (r : ZRangeBy) :
    List GoString :=
  (ledger.filter (fun e => r.contains L e.1)).map (fun e => e.2)

/-! ## internal/datatypes -/

/-- The map `StructToMap` returns for a payment request: one entry per JSON
field; a JSON number is read back as a float64. -/
structure PaymentMap (F : Type) where
  correlationId : GoString
  amount : F
  retry : F

/-- `datatypes.StructToMap` on a `PaymentRequest`.  (`json.Marshal` returns an
error only for an amount that is NaN or infinite; no JSON body and no record
written by this program carries one, and that branch is left out.) -/
def StructToMap {F : Type} (L : Float64Lib F) (p : PaymentRequest F) : PaymentMap F :=
  ⟨p.CorrelationId, p.Amount, L.ofInt64 p.Retry⟩

/-- The record `XAdd` publishes for a map of values: a string is written as it
is, a float64 in its shortest rendering. -/
def XAddValues {F : Type} (L : Float64Lib F) (m : PaymentMap F) : StreamMsg :=
  ⟨m.correlationId, L.fmtShortest m.amount, L.fmtShortest m.retry⟩

/-! ## internal/services -/

def defaultId : GoString := "default".toList

def fallbackId : GoString := "fallback".toList

/-- The map `PaymentService.providers` built by `NewPaymentService`; a key
that is not in the map gives the nil provider, `none`. -/
def providers (key : GoString) : Option Provider :=
  if key = defaultId then some ⟨defaultId, DefaultProviderURL⟩
  else if key = fallbackId then some ⟨fallbackId, FallbackProviderURL⟩
  else none

def defaultProvider : Provider := ⟨defaultId, DefaultProviderURL⟩

def fallbackProvider : Provider := ⟨fallbackId, FallbackProviderURL⟩

/-- `PaymentService.QueuePayment`: the record is appended to the stream
`payments` (the goroutine that publishes it is run at once; the trimming of
the stream near 100000 records is not modelled).  The function returns nil. -/
def QueuePayment {F : Type} (L : Float64Lib F) (s : Store F) (payment : PaymentRequest F) :
    Store F × List (Event F) :=
  let paymentMap := StructToMap L payment
  let msg := XAddValues L paymentMap
  ({ s with stream := s.stream ++ [msg] }, [Event.xadd msg])

/-- The choice `getProvider` makes from the two health polls when the cache
gives nothing (the statements after the deferred cache write). -/
def selectProvider (df fb : Except ProviderError ProviderHealthCheckResponse) : Provider :=
  match df with
  | Except.error _ => fallbackProvider
  | Except.ok d =>
    match fb with
    | Except.error _ => defaultProvider
    | Except.ok f =>
      if d.Failing && !f.Failing then fallbackProvider
      else if d.Failing && f.Failing &&
          decide (wrapInt64 (f.MinResponseTime * 10) < wrapInt64 (d.MinResponseTime * 9)) then
        fallbackProvider
      else defaultProvider

/-- `PaymentService.getProvider`: the provider (`none` is the nil provider),
the store afterwards and the effects. -/
def getProvider {F : Type} (env : Env) (s : Store F) :
    Option Provider × Store F × List (Event F) :=
  let cachedProvider := cacheGet env.redisNow s.cache
  if cachedProvider ≠ [] then
    (providers cachedProvider, s, [Event.cacheGet])
  else
    let df := Provider.HealthCheck env defaultProvider
    let fb := Provider.HealthCheck env fallbackProvider
    let provider := selectProvider df fb
    (some provider,
     { s with cache := cacheSet env.redisNow provider.GetID 5000 },
     [Event.cacheGet, Event.healthCheck defaultId, Event.healthCheck fallbackId,
      Event.cacheSet provider.GetID 5000])

/-- `PaymentService.pubPaymentSummary`. -/
def pubPaymentSummary {F : Type} (L : Float64Lib F) (s : Store F) (payment : PaymentDetails F) :
    Store F × List (Event F) :=
  let score := L.ofInt64 payment.ProcessedAt.UnixMicro
  let member := MarshalBinary L payment
  ({ s with ledger := ZAdd L s.ledger score member }, [Event.zadd score member])

/-- What one call of `ProcessPayment` leaves behind: the store, the effects,
the request (it is passed by pointer and may be changed) and the returned
error. -/
structure ProcessResult (F : Type) where
  store : Store F
  events : List (Event F)
  payment : PaymentRequest F
  err : Option ProviderError

/-- `PaymentService.ProcessPayment`; `none` is the runtime panic of a method
call on the nil provider. -/
def ProcessPayment {F : Type} (L : Float64Lib F) (env : Env) (s : Store F)
    (payment : PaymentRequest F) : Option (ProcessResult F) :=
  if payment.Retry > 3 then some ⟨s, [], payment, none⟩
  else
    match getProvider env s with
    | (none, _, _) => none
    | (some provider, s1, ev1) =>
      match provider.ProcessPayment env payment with
      | Except.error _ =>
        let payment1 : PaymentRequest F := { payment with Retry := payment.Retry + 1 }
        let q := QueuePayment L s1 payment1
        some ⟨q.1, ev1 ++ [Event.submit provider.GetID payment] ++ q.2, payment1, none⟩
      | Except.ok requestedAt =>
        let w := pubPaymentSummary L s1
          ⟨payment.CorrelationId, payment.Amount, provider.GetID, requestedAt⟩
        some ⟨w.1, ev1 ++ [Event.submit provider.GetID payment] ++ w.2, payment, none⟩

/-- The range `GetSummary` builds from its two bounds. -/
def summaryRange (fromT toT : Time) : ZRangeBy :=
  if !fromT.IsZero && !toT.IsZero then ⟨some fromT.UnixMicro, some toT.UnixMicro⟩
  else if !fromT.IsZero then ⟨some fromT.UnixMicro, none⟩
  else if !toT.IsZero then ⟨none, some toT.UnixMicro⟩
  else ⟨none, none⟩

/-- The body of the loop of `GetSummary` for one member. -/
def summaryStep {F : Type} (L : Float64Lib F) (acc : PaymentSummaryResponse F) (v : GoString) :
    PaymentSummaryResponse F :=
  let pd := (FromStringToPaymentDetails L v).1
  if pd.Provider = defaultId then
    { acc with Default := ⟨acc.Default.TotalRequests + 1, L.add acc.Default.TotalAmount pd.Amount⟩ }
  else if pd.Provider = fallbackId then
    { acc with Fallback := ⟨acc.Fallback.TotalRequests + 1, L.add acc.Fallback.TotalAmount pd.Amount⟩ }
  else acc

/-- The loop of `GetSummary` over the members the range query returned. -/
def summarize {F : Type} (L : Float64Lib F) (values : List GoString) : PaymentSummaryResponse F :=
  values.foldl (summaryStep L) ⟨⟨0, L.zero⟩, ⟨0, L.zero⟩⟩

/-- `PaymentService.GetSummary`. -/
def GetSummary {F : Type} (L : Float64Lib F) (s : Store F) (fromT toT : Time) :
    PaymentSummaryResponse F :=
  let rangeby := summaryRange fromT toT
  let values := ZRangeByScore L s.ledger rangeby
  summarize L values

/-! ## cmd/server -/

/-- The handler of `POST /payments`: `body` is what `ShouldBindJSON` bound
(`none` when it returned an error); the result is the status code, the store
and the effects.  `QueuePayment` returns nil, so the handler never answers
500. -/
def postPayments {F : Type} (L : Float64Lib F) (s : Store F) (body : Option (PaymentRequest F)) :
    Nat × Store F × List (Event F) :=
  match body with
  | none => (400, s, [])
  | some r =>
    let q := QueuePayment L s r
    (202, q.1, q.2)

/-! ## cmd/worker -/

/-- The request the dequeue loop builds from one record: `correlationId` and
`amount` are read from the record, `Retry` is left at its zero value; `none`
when the amount does not parse, where `main` returns. -/
def decodeMessage {F : Type} (L : Float64Lib F) (msg : StreamMsg) : Option (PaymentRequest F) :=
  match L.parseFloat msg.amount with
  | none => none
  | some amount => some ⟨msg.correlationId, amount, 0⟩

/-- Whether the worker process is still in its loop. -/
inductive WorkerStatus where
  | running
  | returned
  | panicked
deriving DecidableEq

/-- The worker process: the store, the effects so far, the number of records
handled and the status. -/
structure WorkerRun (F : Type) where
  store : Store F
  events : List (Event F)
  handled : Nat
  status : WorkerStatus

/-- The body of the inner loop of `main` for one record: the request is built,
submitted to the pool, whose handler `ProcessPayment` is run at once, and the
record is acknowledged.  The `n`-th record handled meets the world `envs n`. -/
def handleMessage {F : Type} (L : Float64Lib F) (envs : Nat → Env) (run : WorkerRun F)
    (msg : StreamMsg) : WorkerRun F :=
  if run.status ≠ WorkerStatus.running then run
  else
    match decodeMessage L msg with
    | none => { run with status := WorkerStatus.returned }
    | some paymentRequest =>
      match ProcessPayment L (envs run.handled) run.store paymentRequest with
      | none => { run with status := WorkerStatus.panicked }
      | some r =>
        { store := r.store, events := run.events ++ r.events, handled := run.handled + 1,
          status := WorkerStatus.running }

/-- The loop of `main`, `n` rounds of it: a round reads up to 100 records of
the stream and handles them in order. -/
def workerMain {F : Type} (L : Float64Lib F) (envs : Nat → Env) : Nat → WorkerRun F → WorkerRun F
  | 0, run => run
  | n + 1, run =>
    if run.status ≠ WorkerStatus.running then run
    else
      let entries := run.store.stream.take 100
      let run1 : WorkerRun F :=
        { run with store := { run.store with stream := run.store.stream.drop 100 } }
      workerMain L envs n (entries.foldl (handleMessage L envs) run1)

/-! ## An exact two-decimal interpretation of the float64 primitives -/

/-- The value of a text of decimal digits; `none` when a character is not a
digit. -/
def digitsValue (cs : GoString) : Option Nat :=
  cs.foldl
    (fun acc c =>
      match acc with
      | none => none
      | some n => if '0' ≤ c ∧ c ≤ '9' then some (n * 10 + (c.toNat - 48)) else none)
    (some 0)

/-- The `%.2f` rendering of a count of hundredths. -/
def Fixed2.fmt2 (c : Int) : GoString :=
  (if c < 0 then ['-'] else []) ++ Nat.toDigits 10 (c.natAbs / 100) ++
    ['.', Nat.digitChar (c.natAbs % 100 / 10), Nat.digitChar (c.natAbs % 10)]

/-- The shortest rendering of a count of hundredths. -/
def Fixed2.fmtShortest (c : Int) : GoString :=
  (if c < 0 then ['-'] else []) ++ Nat.toDigits 10 (c.natAbs / 100) ++
    (if c.natAbs % 100 = 0 then []
     else if c.natAbs % 10 = 0 then ['.', Nat.digitChar (c.natAbs % 100 / 10)]
     else ['.', Nat.digitChar (c.natAbs % 100 / 10), Nat.digitChar (c.natAbs % 10)])

/-- The count of hundredths of an unsigned decimal text with at most two
decimals. -/
def Fixed2.parseUnsigned (s : GoString) : Option Int :=
  match stringsSplit '.' s with
  | [ip] =>
    if ip = [] then none else (digitsValue ip).map (fun n => (n : Int) * 100)
  | [ip, fp] =>
    if ip = [] then none
    else
      match digitsValue ip, digitsValue fp with
      | some n, some f =>
        if fp.length = 0 then some ((n : Int) * 100)
        else if fp.length = 1 then some ((n : Int) * 100 + (f : Int) * 10)
        else if fp.length = 2 then some ((n : Int) * 100 + (f : Int))
        else none
      | _, _ => none
  | _ => none

/-- The count of hundredths of a signed decimal text with at most two
decimals. -/
def Fixed2.parseFloat (s : GoString) : Option Int :=
  match s with
  | '-' :: r => (Fixed2.parseUnsigned r).map (fun v => -v)
  | '+' :: r => Fixed2.parseUnsigned r
  | r => Fixed2.parseUnsigned r

/-- Amounts and scores as exact counts of hundredths: a value `c` stands for
the number `c / 100`.  The examples use only numbers with at most two decimals
whose sums are exact in float64, on which the seven operations give what the
Go operations give. -/
def Fixed2 : Float64Lib Int where
  zero := 0
  add := fun a b => a + b
  le := fun a b => decide (a ≤ b)
  ofInt64 := fun n => n * 100
  fmt2 := Fixed2.fmt2
  fmtShortest := Fixed2.fmtShortest
  parseFloat := Fixed2.parseFloat

/-! ## The float64 values, `%.2f` and `ParseFloat` on decimal texts -/

/-- A float64 value: a finite value is `mant * 2 ^ exp` with its sign (the
sign of a zero included); the other values are the two infinities and NaN. -/
inductive Float64 where
  | finite (neg : Bool) (mant : Nat) (exp : Int)
  | inf (neg : Bool)
  | nan
deriving DecidableEq

/-- The integer nearest to `num / den`, a tie going to the even integer. -/
def roundHalfEven (num den : Nat) : Nat :=
  if 2 * (num % den) < den then num / den
  else if den < 2 * (num % den) then num / den + 1
  else if num / den % 2 = 0 then num / den
  else num / den + 1

/-- The number of binary digits of `n`, counted in at most `fuel` steps. -/
def binaryDigitsAux : Nat → Nat → Nat
  | 0, _ => 0
  | fuel + 1, n => if n = 0 then 0 else binaryDigitsAux fuel (n / 2) + 1

/-- The number of binary digits of `n`. -/
def binaryDigits (n : Nat) : Nat := binaryDigitsAux n n

/-- The binary exponent of a positive quotient `N / D`: the `E` with
`2 ^ E ≤ N / D < 2 ^ (E + 1)`. -/
def Float64.binaryExponent (N D : Nat) : Int :=
  if D ≤ N then (binaryDigits (N / D) : Int) - 1
  else -(binaryDigits ((D - 1) / N) : Int)

/-- The float64 nearest to `N / D` with the given sign, in IEEE 754 rounding
to nearest, ties to even: 53 binary digits, or fewer below `2 ^ -1022`, and an
infinity from `2 ^ 1024 - 2 ^ 970` on. -/
def Float64.nearest (neg : Bool) (N D : Nat) : Float64 :=
  if N = 0 then Float64.finite neg 0 (-1074)
  else
    let e : Int := max (Float64.binaryExponent N D - 52) (-1074)
    let m : Nat :=
      if 0 ≤ e then roundHalfEven N (D * 2 ^ e.toNat)
      else roundHalfEven (N * 2 ^ (-e).toNat) D
    if m = 9007199254740992 then
      if e + 1 > 971 then Float64.inf neg else Float64.finite neg 4503599627370496 (e + 1)
    else if e > 971 then Float64.inf neg
    else Float64.finite neg m e

/-- The number of hundredths nearest to `mant * 2 ^ exp`, a tie going to the
even number: the digits `%.2f` prints. -/
def Float64.hundredths (mant : Nat) (exp : Int) : Nat :=
  if 0 ≤ exp then 100 * mant * 2 ^ exp.toNat
  else roundHalfEven (100 * mant) (2 ^ (-exp).toNat)

/-- The rendering `%.2f` of a float64: the exact value rounded to two decimals,
ties to even. -/
def Float64.fmt2 : Float64 → GoString
  | Float64.finite neg mant exp =>
    (if neg then ['-'] else []) ++
      Nat.toDigits 10 (Float64.hundredths mant exp / 100) ++
      ['.', Nat.digitChar (Float64.hundredths mant exp % 100 / 10),
        Nat.digitChar (Float64.hundredths mant exp % 10)]
  | Float64.inf false => "+Inf".toList
  | Float64.inf true => "-Inf".toList
  | Float64.nan => "NaN".toList

/-- What `ParseFloat` returns for a rounded value: a range error, `none`, for
an infinity. -/
def Float64.rangeChecked : Float64 → Option Float64
  | Float64.inf _ => none
  | x => some x

/-- `ParseFloat` on an unsigned decimal text, digits with at most one point
and a digit after it; the first `none` says that the text is not of this
form. -/
def Float64.parseUnsignedDecimal (neg : Bool) (body : GoString) : Option (Option Float64) :=
  match stringsSplit '.' body with
  | [ip] =>
    if ip = [] then none
    else
      match digitsValue ip with
      | some n => some (Float64.rangeChecked (Float64.nearest neg n 1))
      | none => none
  | [ip, fp] =>
    if fp = [] then none
    else
      match digitsValue ip, digitsValue fp with
      | some n, some f =>
        some (Float64.rangeChecked
          (Float64.nearest neg (n * 10 ^ fp.length + f) (10 ^ fp.length)))
      | _, _ => none
  | _ => none

/-- `ParseFloat` on a decimal text with an optional sign: the float64 nearest
to the decimal number, or the range error; the first `none` says that the text
is not of this form (it has an exponent, is hexadecimal, has underscores, is
an infinity or NaN, or is no number). -/
def Float64.parseDecimal (t : GoString) : Option (Option Float64) :=
  if t.head? = some '-' then Float64.parseUnsignedDecimal true t.tail
  else if t.head? = some '+' then Float64.parseUnsignedDecimal false t.tail
  else Float64.parseUnsignedDecimal false t

/-- The hundredths nearest to a float64, as an integer (0 for the values that
are not finite). -/
def Float64.toHundredths : Float64 → Int
  | Float64.finite neg mant exp =>
    if neg then -(Float64.hundredths mant exp : Int) else (Float64.hundredths mant exp : Int)
  | _ => 0

/-- The float64 nearest to a number of hundredths. -/
def Float64.ofHundredths (c : Int) : Float64 :=
  Float64.nearest (decide (c < 0)) c.natAbs 100

/-- The two-decimal interpretation carried over to `Float64`: every operation
is that of `Fixed2` on the hundredths nearest to its arguments. -/
def Fixed2.onFloat64 : Float64Lib Float64 where
  zero := Float64.ofHundredths Fixed2.zero
  add := fun a b => Float64.ofHundredths (Fixed2.add a.toHundredths b.toHundredths)
  le := fun a b => Fixed2.le a.toHundredths b.toHundredths
  ofInt64 := fun n => Float64.ofHundredths (Fixed2.ofInt64 n)
  fmt2 := fun a => Fixed2.fmt2 a.toHundredths
  fmtShortest := fun a => Fixed2.fmtShortest a.toHundredths
  parseFloat := fun t => (Fixed2.parseFloat t).map Float64.ofHundredths

/-- A float64 library whose `%.2f` and whose `ParseFloat` on decimal texts are
those of Go as modelled above; its other operations, and `ParseFloat` on the
texts of any other form, are those of `rest`. -/
def GoDecimal (rest : Float64Lib Float64) : Float64Lib Float64 where
  zero := Float64.finite false 0 (-1074)
  add := rest.add
  le := rest.le
  ofInt64 := rest.ofInt64
  fmt2 := Float64.fmt2
  fmtShortest := rest.fmtShortest
  parseFloat := fun t =>
    match Float64.parseDecimal t with
    | some r => r
    | none => rest.parseFloat t

/-- A float64 rounded to two decimal places: the float64 nearest to the
two-decimal number nearest to it (ties to even); an infinity and NaN are left
as they are. -/
def Float64.roundTo2 : Float64 → Float64
  | Float64.finite neg mant exp => Float64.nearest neg (Float64.hundredths mant exp) 100
  | x => x

/-- Whether a float64 is finite and not negative: `mant * 2 ^ exp` with a
mantissa of at most 53 binary digits and an exponent of at most 971, as every
finite float64 of positive sign is. -/
def Float64.IsFiniteNonneg (a : Float64) : Prop :=
  ∃ mant exp, a = Float64.finite false mant exp ∧ mant < 9007199254740992 ∧ exp ≤ 971

/-! ## Definitions used to state the properties -/

/-- The selector decision as the specification words it, the comparison of the
response times being the comparison of integers. -/
def specSelect (df fb : Except ProviderError ProviderHealthCheckResponse) : Provider :=
  match df, fb with
  | Except.error _, _ => fallbackProvider
  | Except.ok _, Except.error _ => defaultProvider
  | Except.ok d, Except.ok f =>
    if d.Failing = true ∧ (f.Failing = false ∨ f.MinResponseTime * 10 < d.MinResponseTime * 9) then
      fallbackProvider
    else defaultProvider

/-- The condition under which the specification has the selector return
`fallback`: the default poll errored, or both polls succeeded, default is
failing and fallback is not failing or is faster by the 10 to 9 comparison,
taken on the integers. -/
def specFallback (df fb : Except ProviderError ProviderHealthCheckResponse) : Prop :=
  (∃ e, df = Except.error e) ∨
  (∃ d f, df = Except.ok d ∧ fb = Except.ok f ∧ d.Failing = true ∧
    (f.Failing = false ∨ f.MinResponseTime * 10 < d.MinResponseTime * 9))

/-- Whether both products of the tie-break are int64 values. -/
def productsFit (df fb : Except ProviderError ProviderHealthCheckResponse) : Prop :=
  ∀ d f, df = Except.ok d → fb = Except.ok f →
    (-9223372036854775808 ≤ f.MinResponseTime * 10 ∧ f.MinResponseTime * 10 < 9223372036854775808) ∧
    (-9223372036854775808 ≤ d.MinResponseTime * 9 ∧ d.MinResponseTime * 9 < 9223372036854775808)

/-- A world in which both processors answer the health poll with status 200
and the given bodies, and the payment with the given status. -/
def healthEnv (redisNow : Nat) (d f : ProviderHealthCheckResponse) (payStatus : Nat) : Env where
  redisNow := redisNow
  now := ⟨1700000000, 0⟩
  payReply := fun _ => some ⟨payStatus, none⟩
  healthReply := fun p => if p = defaultProvider then some ⟨200, some d⟩ else some ⟨200, some f⟩

/-- The store of a fresh Redis server. -/
def emptyStore (F : Type) : Store F := ⟨[], [], none⟩

/-- A world in which both processors are healthy and answer every payment with
the given status. -/
def payEnv (payStatus : Nat) : Env := healthEnv 0 ⟨false, 0⟩ ⟨false, 0⟩ payStatus

/-- The payment of the first scenario of the specification: id `abc`, amount 19.90. -/
def samplePayment (retry : Int) : PaymentRequest Int := ⟨"abc".toList, 1990, retry⟩

/-- Whether a member decodes, without error, to a record of the given provider. -/
def decodesTo {F : Type} (L : Float64Lib F) (provider : GoString) (member : GoString) : Bool :=
  decide ((FromStringToPaymentDetails L member).2 = none) &&
    decide ((FromStringToPaymentDetails L member).1.Provider = provider)

/-- The amount a member decodes to. -/
def decodedAmount {F : Type} (L : Float64Lib F) (member : GoString) : F :=
  (FromStringToPaymentDetails L member).1.Amount

/-- The lower bound of a summary in the words of the specification: none
(minus infinity) for the zero instant, else the microseconds of the instant. -/
def specLower (fromT : Time) : Option Int :=
  if fromT.IsZero then none else some fromT.UnixMicro

/-- The upper bound of a summary in the words of the specification: none (plus
infinity) for the zero instant, else the microseconds of the instant. -/
def specUpper (toT : Time) : Option Int :=
  if toT.IsZero then none else some toT.UnixMicro

/-- Whether a score lies in the inclusive range of the two bounds. -/
def specInRange {F : Type} (L : Float64Lib F) (fromT toT : Time) (score : F) : Bool :=
  (match specLower fromT with
   | none => true
   | some lo => L.le (L.ofInt64 lo) score) &&
  (match specUpper toT with
   | none => true
   | some hi => L.le score (L.ofInt64 hi))

/-- The ledger entries the specification counts for a provider: those whose
score lies in the range and whose member decodes to that provider. -/
def specSelected {F : Type} (L : Float64Lib F) (ledger : List (F × GoString)) (fromT toT : Time)
    (provider : GoString) : List (F × GoString) :=
  ledger.filter (fun e => specInRange L fromT toT e.1 && decodesTo L provider e.2)

/-- The summary of a provider in the words of the specification: the number of
the selected entries and the sum of their decoded amounts, added up in the
order of the ledger starting from zero. -/
def specSummary {F : Type} (L : Float64Lib F) (ledger : List (F × GoString)) (fromT toT : Time)
    (provider : GoString) : PaymentSummary F :=
  ⟨(specSelected L ledger fromT toT provider).length,
   ((specSelected L ledger fromT toT provider).map (fun e => decodedAmount L e.2)).foldl
      L.add L.zero⟩

/-- The retry values the handler had in hand at its submits, in order. -/
def submittedRetries {F : Type} (events : List (Event F)) : List Int :=
  events.filterMap (fun ev =>
    match ev with
    | Event.submit _ payment => some payment.Retry
    | _ => none)

/-- The worker process at its start, the payment just published by the
ingress on a fresh store. -/
def startRun {F : Type} (L : Float64Lib F) (payment : PaymentRequest F) : WorkerRun F :=
  ⟨(QueuePayment L (emptyStore F) payment).1, [], 0, WorkerStatus.running⟩

/-- The provider `getProvider` chooses in a world when the cache gives nothing. -/
def polledProvider (env : Env) : Provider :=
  selectProvider (Provider.HealthCheck env defaultProvider) (Provider.HealthCheck env fallbackProvider)

/-- The key `provider` holds, if anything, the empty text or the id of one of
the two providers: the only values the program writes to it. -/
def CacheOK {F : Type} (s : Store F) : Prop :=
  ∀ v expiresAt, s.cache = some (v, expiresAt) → v = [] ∨ v = defaultId ∨ v = fallbackId

end PaymentGateway

namespace PaymentGateway

/-! ## Integers -/

theorem wrapInt64_eq_self (x : Int) (h1 : -9223372036854775808 ≤ x)
    (h2 : x < 9223372036854775808) : wrapInt64 x = x := by
  unfold wrapInt64
  omega

/-! ## The selector (C2, C3) -/

theorem selectProvider_eq_specSelect (df fb : Except ProviderError ProviderHealthCheckResponse)
    (hfit : productsFit df fb) : selectProvider df fb = specSelect df fb := by
  cases df with
  | error e => cases fb <;> rfl
  | ok d =>
    cases fb with
    | error e => rfl
    | ok f =>
      obtain ⟨⟨h1, h2⟩, h3, h4⟩ := hfit d f rfl rfl
      simp only [selectProvider, specSelect, wrapInt64_eq_self _ h1 h2, wrapInt64_eq_self _ h3 h4]
      cases d.Failing <;> cases f.Failing <;> simp

theorem selectProvider_cases (df fb : Except ProviderError ProviderHealthCheckResponse) :
    selectProvider df fb = defaultProvider ∨ selectProvider df fb = fallbackProvider := by
  unfold selectProvider
  repeat (first | split | simp)

theorem specSelect_eq_fallback_iff (df fb : Except ProviderError ProviderHealthCheckResponse) :
    specSelect df fb = fallbackProvider ↔ specFallback df fb := by
  have hne : defaultProvider ≠ fallbackProvider := by decide
  cases df with
  | error e =>
    cases fb <;> simp [specSelect, specFallback]
  | ok d =>
    cases fb with
    | error e => simp [specSelect, specFallback, hne]
    | ok f =>
      simp only [specSelect, specFallback, reduceCtorEq, exists_false, false_or,
        Except.ok.injEq, exists_and_left, exists_eq_left']
      split
      · simp_all
      · simp_all

/-- C2 (as amended): on a cache miss, when the two products of the tie-break
are int64 values, `getProvider` returns `fallback` exactly when the default
poll errored, or both polls succeeded, default is failing and fallback is not
failing or `fallback.minResponseTime * 10 < default.minResponseTime * 9`; in
every other case it returns `default`. -/
theorem getProvider_miss_decision {F : Type} (env : Env) (s : Store F)
    (hmiss : cacheGet env.redisNow s.cache = [])
    (hfit : productsFit (Provider.HealthCheck env defaultProvider)
      (Provider.HealthCheck env fallbackProvider)) :
    ((getProvider env s).1 = some fallbackProvider ↔
      specFallback (Provider.HealthCheck env defaultProvider)
        (Provider.HealthCheck env fallbackProvider)) ∧
    (¬ specFallback (Provider.HealthCheck env defaultProvider)
        (Provider.HealthCheck env fallbackProvider) →
      (getProvider env s).1 = some defaultProvider) := by
  have hg : (getProvider env s).1 =
      some (specSelect (Provider.HealthCheck env defaultProvider)
        (Provider.HealthCheck env fallbackProvider)) := by
    simp only [getProvider, hmiss, ne_eq, not_true_eq_false, if_false]
    rw [selectProvider_eq_specSelect _ _ hfit]
  rw [hg, Option.some.injEq, specSelect_eq_fallback_iff]
  refine ⟨Iff.rfl, fun hn => ?_⟩
  rw [← specSelect_eq_fallback_iff] at hn
  rcases selectProvider_cases (Provider.HealthCheck env defaultProvider)
    (Provider.HealthCheck env fallbackProvider) with h | h
  · rw [← selectProvider_eq_specSelect _ _ hfit, h]
  · rw [selectProvider_eq_specSelect _ _ hfit] at h
    exact absurd h hn

/-- The two examples of the specification: default 100 and fallback 80, both
failing, give `fallback`; default 100 and fallback 90 give `default`. -/
theorem getProvider_miss_decision_witness :
    (getProvider (healthEnv 0 ⟨true, 100⟩ ⟨true, 80⟩ 200) (emptyStore Int)).1 = some fallbackProvider ∧
    (getProvider (healthEnv 0 ⟨true, 100⟩ ⟨true, 90⟩ 200) (emptyStore Int)).1 = some defaultProvider := by
  constructor
  · refine (getProvider_miss_decision (healthEnv 0 ⟨true, 100⟩ ⟨true, 80⟩ 200) (emptyStore Int)
      (by decide) (by intro d f hd hf; cases hd; cases hf; decide)).1.mpr ?_
    exact Or.inr ⟨⟨true, 100⟩, ⟨true, 80⟩, rfl, rfl, rfl, Or.inr (by decide)⟩
  · refine (getProvider_miss_decision (healthEnv 0 ⟨true, 100⟩ ⟨true, 90⟩ 200) (emptyStore Int)
      (by decide) (by intro d f hd hf; cases hd; cases hf; decide)).2 ?_
    rintro (⟨e, he⟩ | ⟨d, f, hd, hf, _, h⟩)
    · cases he
    · cases hd
      cases hf
      rcases h with h | h
      · cases h
      · exact absurd h (by decide)

/-- C2 (as stated) fails: both polls succeed, both report failing, default
reports 100 and fallback 922337203685477581; the product
`922337203685477581 * 10` is not below `100 * 9`, yet it wraps around in int64
and `getProvider` returns `fallback`. -/
theorem getProvider_miss_overflow :
    (getProvider (healthEnv 0 ⟨true, 100⟩ ⟨true, 922337203685477581⟩ 200) (emptyStore Int)).1
        = some fallbackProvider ∧
    cacheGet 0 (emptyStore Int).cache = [] ∧
    ¬ ((922337203685477581 : Int) * 10 < 100 * 9) ∧
    specSelect (Except.ok ⟨true, 100⟩) (Except.ok ⟨true, 922337203685477581⟩) = defaultProvider := by
  decide

theorem providers_id (v : GoString) (p : Provider) (h : providers v = some p) : p.GetID = v := by
  unfold providers at h
  split at h
  · cases h; simp_all [Provider.GetID]
  · split at h
    · cases h; simp_all [Provider.GetID]
    · cases h

theorem providers_selectProvider (df fb : Except ProviderError ProviderHealthCheckResponse) :
    providers (selectProvider df fb).GetID = some (selectProvider df fb) := by
  rcases selectProvider_cases df fb with h | h <;> rw [h] <;> decide

theorem getProvider_hit {F : Type} (env : Env) (s : Store F) (v : GoString) (expiresAt : Nat)
    (p : Provider) (hc : s.cache = some (v, expiresAt)) (hnow : env.redisNow < expiresAt)
    (hp : providers v = some p) : getProvider env s = (some p, s, [Event.cacheGet]) := by
  have hv : v ≠ [] := by
    intro h
    have h0 : providers [] = none := by decide
    rw [h, h0] at hp
    cases hp
  simp [getProvider, cacheGet, hc, hnow, hv, hp]

theorem providers_polledProvider (env : Env) :
    providers (polledProvider env).GetID = some (polledProvider env) :=
  providers_selectProvider _ _

theorem getProvider_miss {F : Type} (env : Env) (s : Store F)
    (hmiss : cacheGet env.redisNow s.cache = []) :
    getProvider env s =
      (some (polledProvider env),
        ⟨s.stream, s.ledger, some ((polledProvider env).GetID, env.redisNow + 5000)⟩,
        [Event.cacheGet, Event.healthCheck defaultId, Event.healthCheck fallbackId,
          Event.cacheSet (polledProvider env).GetID 5000]) := by
  simp only [getProvider, hmiss, ne_eq, not_true_eq_false, if_false, polledProvider, cacheSet]

/-- C3: while the key `provider` holds an unexpired provider id `v`,
`getProvider` returns the provider whose id is `v`, polls no health endpoint
and leaves the store as it is; when the key gives nothing, the value written
(with a TTL of 5000 ms) is the id of the provider returned, and every call
within the TTL returns that same provider without a health poll. -/
theorem getProvider_cache {F : Type} (env : Env) (s : Store F) :
    (∀ v expiresAt p, s.cache = some (v, expiresAt) → env.redisNow < expiresAt →
        providers v = some p →
        p.GetID = v ∧ getProvider env s = (some p, s, [Event.cacheGet])) ∧
    (cacheGet env.redisNow s.cache = [] →
      ∃ p, (getProvider env s).1 = some p ∧
        (getProvider env s).2.1.cache = some (p.GetID, env.redisNow + 5000) ∧
        (getProvider env s).2.2.filter Event.isCacheSet = [Event.cacheSet p.GetID 5000] ∧
        ∀ env2 : Env, env.redisNow ≤ env2.redisNow → env2.redisNow < env.redisNow + 5000 →
          getProvider env2 (getProvider env s).2.1 =
            (some p, (getProvider env s).2.1, [Event.cacheGet])) := by
  refine ⟨fun v expiresAt p hc hnow hp => ⟨providers_id v p hp, getProvider_hit env s v _ p hc hnow hp⟩, ?_⟩
  intro hmiss
  have hg := getProvider_miss env s hmiss
  refine ⟨_, by rw [hg], by rw [hg], by rw [hg]; rfl, ?_⟩
  intro env2 _ h2
  rw [hg]
  exact getProvider_hit env2 _ _ _ _ rfl h2 (providers_polledProvider env)

/-- The scenario of the specification: the key holds `fallback` until 5000 and
is read at 1000; the key is absent, default is failing, fallback is not. -/
theorem getProvider_cache_witness :
    (fallbackProvider.GetID = fallbackId ∧
      getProvider (healthEnv 1000 ⟨false, 0⟩ ⟨false, 0⟩ 200)
          (⟨[], [], some (fallbackId, 5000)⟩ : Store Int) =
        (some fallbackProvider, ⟨[], [], some (fallbackId, 5000)⟩, [Event.cacheGet])) ∧
    (∃ p, (getProvider (healthEnv 0 ⟨true, 100⟩ ⟨false, 200⟩ 200) (emptyStore Int)).1 = some p ∧
      (getProvider (healthEnv 0 ⟨true, 100⟩ ⟨false, 200⟩ 200) (emptyStore Int)).2.1.cache =
        some (p.GetID, 0 + 5000) ∧
      (getProvider (healthEnv 0 ⟨true, 100⟩ ⟨false, 200⟩ 200) (emptyStore Int)).2.2.filter
          Event.isCacheSet = [Event.cacheSet p.GetID 5000] ∧
      ∀ env2 : Env, 0 ≤ env2.redisNow → env2.redisNow < 0 + 5000 →
        getProvider env2 (getProvider (healthEnv 0 ⟨true, 100⟩ ⟨false, 200⟩ 200) (emptyStore Int)).2.1 =
          (some p, (getProvider (healthEnv 0 ⟨true, 100⟩ ⟨false, 200⟩ 200) (emptyStore Int)).2.1,
            [Event.cacheGet])) :=
  ⟨(getProvider_cache (healthEnv 1000 ⟨false, 0⟩ ⟨false, 0⟩ 200)
      (⟨[], [], some (fallbackId, 5000)⟩ : Store Int)).1 fallbackId 5000 fallbackProvider rfl
      (by decide) (by decide),
   (getProvider_cache (healthEnv 0 ⟨true, 100⟩ ⟨false, 200⟩ 200) (emptyStore Int)).2 (by decide)⟩

/-! ## The worker handler (C6, C9, C7) -/

theorem cacheOK_getProvider {F : Type} (env : Env) (s : Store F) (hc : CacheOK s) :
    CacheOK (getProvider env s).2.1 := by
  by_cases hmiss : cacheGet env.redisNow s.cache = []
  · rw [getProvider_miss env s hmiss]
    intro v e h
    simp only [Option.some.injEq, Prod.mk.injEq] at h
    rcases selectProvider_cases (Provider.HealthCheck env defaultProvider)
      (Provider.HealthCheck env fallbackProvider) with h1 | h1
    · right; left; rw [← h.1, polledProvider, h1]; rfl
    · right; right; rw [← h.1, polledProvider, h1]; rfl
  · simpa [getProvider, hmiss] using hc

theorem getProvider_some {F : Type} (env : Env) (s : Store F) (hc : CacheOK s) :
    ∃ p, (getProvider env s).1 = some p := by
  by_cases hmiss : cacheGet env.redisNow s.cache = []
  · exact ⟨_, by rw [getProvider_miss env s hmiss]⟩
  · have hv : providers (cacheGet env.redisNow s.cache) ≠ none := by
      unfold cacheGet at hmiss ⊢
      cases hcache : s.cache with
      | none => simp [hcache] at hmiss
      | some ve =>
        obtain ⟨v, e⟩ := ve
        simp only [hcache] at hmiss ⊢
        by_cases hnow : env.redisNow < e
        · simp only [hnow, if_true] at hmiss ⊢
          rcases hc v e hcache with h | h | h
          · exact absurd h hmiss
          · rw [h]; decide
          · rw [h]; decide
        · simp [hnow] at hmiss
    obtain ⟨p, hp⟩ := Option.ne_none_iff_exists'.mp hv
    exact ⟨p, by simp [getProvider, hmiss, hp]⟩

theorem cacheOK_ProcessPayment {F : Type} (L : Float64Lib F) (env : Env) (s : Store F)
    (payment : PaymentRequest F) (r : ProcessResult F) (hc : CacheOK s)
    (hr : ProcessPayment L env s payment = some r) : CacheOK r.store := by
  have hg := cacheOK_getProvider env s hc
  unfold ProcessPayment at hr
  split at hr
  · cases hr
    exact hc
  · split at hr
    · cases hr
    · rename_i provider s1 ev1 heq
      rw [heq] at hg
      split at hr <;> cases hr <;> exact hg

theorem getProvider_stream {F : Type} (env : Env) (s : Store F) :
    (getProvider env s).2.1.stream = s.stream ∧ (getProvider env s).2.1.ledger = s.ledger := by
  by_cases hmiss : cacheGet env.redisNow s.cache = []
  · rw [getProvider_miss env s hmiss]
    exact ⟨rfl, rfl⟩
  · simp [getProvider, hmiss]

theorem getProvider_events {F : Type} (env : Env) (s : Store F) :
    (getProvider env s).2.2.filter Event.isXAdd = [] ∧
    (getProvider env s).2.2.filter Event.isZAdd = [] ∧
    (getProvider env s).2.2.filter Event.isSubmit = [] := by
  by_cases hmiss : cacheGet env.redisNow s.cache = []
  · rw [getProvider_miss env s hmiss]
    exact ⟨rfl, rfl, rfl⟩
  · simp only [getProvider, hmiss, ne_eq, not_false_eq_true, if_true]
    exact ⟨rfl, rfl, rfl⟩

theorem ProcessPayment_drop {F : Type} (L : Float64Lib F) (env : Env) (s : Store F)
    (payment : PaymentRequest F) (h : payment.Retry > 3) :
    ProcessPayment L env s payment = some ⟨s, [], payment, none⟩ := by
  simp [ProcessPayment, h]

theorem ProcessPayment_failure {F : Type} (L : Float64Lib F) (env : Env) (s : Store F)
    (payment : PaymentRequest F) (provider : Provider) (e : ProviderError)
    (h : payment.Retry ≤ 3) (hp : (getProvider env s).1 = some provider)
    (he : provider.ProcessPayment env payment = Except.error e) :
    ProcessPayment L env s payment =
      some ⟨(QueuePayment L (getProvider env s).2.1
              ⟨payment.CorrelationId, payment.Amount, payment.Retry + 1⟩).1,
            (getProvider env s).2.2 ++ [Event.submit provider.GetID payment] ++
              [Event.xadd (XAddValues L (StructToMap L
                ⟨payment.CorrelationId, payment.Amount, payment.Retry + 1⟩))],
            ⟨payment.CorrelationId, payment.Amount, payment.Retry + 1⟩, none⟩ := by
  have h3 : ¬ payment.Retry > 3 := by omega
  rcases hg : getProvider env s with ⟨p0, s1, ev1⟩
  simp only [hg] at hp ⊢
  cases hp
  simp [ProcessPayment, h3, hg, he, QueuePayment]

theorem ProcessPayment_success {F : Type} (L : Float64Lib F) (env : Env) (s : Store F)
    (payment : PaymentRequest F) (provider : Provider) (requestedAt : Time)
    (h : payment.Retry ≤ 3) (hp : (getProvider env s).1 = some provider)
    (hok : provider.ProcessPayment env payment = Except.ok requestedAt) :
    ProcessPayment L env s payment =
      some ⟨(pubPaymentSummary L (getProvider env s).2.1
              ⟨payment.CorrelationId, payment.Amount, provider.GetID, requestedAt⟩).1,
            (getProvider env s).2.2 ++ [Event.submit provider.GetID payment] ++
              [Event.zadd (L.ofInt64 requestedAt.UnixMicro)
                (MarshalBinary L ⟨payment.CorrelationId, payment.Amount, provider.GetID, requestedAt⟩)],
            payment, none⟩ := by
  have h3 : ¬ payment.Retry > 3 := by omega
  rcases hg : getProvider env s with ⟨p0, s1, ev1⟩
  simp only [hg] at hp ⊢
  cases hp
  simp [ProcessPayment, h3, hg, hok, pubPaymentSummary]

theorem Provider_ProcessPayment_ok {F : Type} (env : Env) (p : Provider) (payment : PaymentRequest F)
    (t : Time) (h : p.ProcessPayment env payment = Except.ok t) : t = env.now := by
  unfold Provider.ProcessPayment at h
  split at h
  · cases h
  · cases h; rfl

/-- C6: for a request with `Retry ≤ 3` whose submit to the picked provider
succeeds with the stamped instant `requestedAt` (the clock reading taken in the
provider client before the call), `ProcessPayment` returns nil, makes one
submit, one ledger append and no re-enqueue; the entry appended has the score
`float64(requestedAt.UnixMicro())` and the member made of the correlation id and
amount of the request and the id of the provider that was picked and called. -/
theorem ProcessPayment_success_path {F : Type} (L : Float64Lib F) (env : Env) (s : Store F)
    (payment : PaymentRequest F) (provider : Provider) (requestedAt : Time)
    (h : payment.Retry ≤ 3) (hp : (getProvider env s).1 = some provider)
    (hok : provider.ProcessPayment env payment = Except.ok requestedAt) :
    ∃ r, ProcessPayment L env s payment = some r ∧ r.err = none ∧
      requestedAt = env.now ∧
      r.events.filter Event.isSubmit = [Event.submit provider.GetID payment] ∧
      r.events.filter Event.isZAdd =
        [Event.zadd (L.ofInt64 requestedAt.UnixMicro)
          (payment.CorrelationId ++ ':' :: (L.fmt2 payment.Amount ++ ':' :: provider.GetID))] ∧
      r.events.filter Event.isXAdd = [] ∧
      r.store.stream = s.stream ∧
      r.store.ledger = ZAdd L s.ledger (L.ofInt64 requestedAt.UnixMicro)
          (payment.CorrelationId ++ ':' :: (L.fmt2 payment.Amount ++ ':' :: provider.GetID)) ∧
      r.payment = payment := by
  refine ⟨_, ProcessPayment_success L env s payment provider requestedAt h hp hok, rfl,
    Provider_ProcessPayment_ok env provider payment requestedAt hok, ?_, ?_, ?_, ?_, ?_, rfl⟩
  · simp only [List.filter_append, (getProvider_events env s).2.2]
    rfl
  · simp only [List.filter_append, (getProvider_events env s).2.1]
    rfl
  · simp only [List.filter_append, (getProvider_events env s).1]
    rfl
  · exact (getProvider_stream env s).1
  · simp only [pubPaymentSummary, (getProvider_stream env s).2]
    rfl

/-- The first scenario of the specification: `abc`, 19.90, the default
processor answers 200; the ledger then holds `abc:19.90:default`. -/
theorem ProcessPayment_success_path_witness :
    ∃ r, ProcessPayment Fixed2 (payEnv 200) (emptyStore Int) (samplePayment 0) = some r ∧
      r.err = none ∧
      (⟨1700000000, 0⟩ : Time) = (payEnv 200).now ∧
      r.events.filter Event.isSubmit = [Event.submit defaultProvider.GetID (samplePayment 0)] ∧
      r.events.filter Event.isZAdd =
        [Event.zadd (Fixed2.ofInt64 (Time.UnixMicro ⟨1700000000, 0⟩))
          ((samplePayment 0).CorrelationId ++
            ':' :: (Fixed2.fmt2 (samplePayment 0).Amount ++ ':' :: defaultProvider.GetID))] ∧
      r.events.filter Event.isXAdd = [] ∧
      r.store.stream = (emptyStore Int).stream ∧
      r.store.ledger = ZAdd Fixed2 (emptyStore Int).ledger
          (Fixed2.ofInt64 (Time.UnixMicro ⟨1700000000, 0⟩))
          ((samplePayment 0).CorrelationId ++
            ':' :: (Fixed2.fmt2 (samplePayment 0).Amount ++ ':' :: defaultProvider.GetID)) ∧
      r.payment = samplePayment 0 :=
  ProcessPayment_success_path Fixed2 (payEnv 200) (emptyStore Int) (samplePayment 0)
    defaultProvider ⟨1700000000, 0⟩ (by decide) (by decide) rfl

/-- C9: under the invariant of the cache key, `ProcessPayment` returns nil
for every request; with `Retry > 3` it has no effect and leaves store and
request as they are; with `Retry ≤ 3` and a failing submit (whatever the
error) it publishes one record, that of the request with `Retry + 1`, and
writes nothing to the ledger. -/
theorem ProcessPayment_absorbs_failure {F : Type} (L : Float64Lib F) (env : Env) (s : Store F)
    (payment : PaymentRequest F) (hc : CacheOK s) :
    ∃ r, ProcessPayment L env s payment = some r ∧ r.err = none ∧
      (payment.Retry > 3 → r.store = s ∧ r.events = [] ∧ r.payment = payment) ∧
      (payment.Retry ≤ 3 →
        ∀ provider e, (getProvider env s).1 = some provider →
          provider.ProcessPayment env payment = Except.error e →
          r.events.filter Event.isSubmit = [Event.submit provider.GetID payment] ∧
          r.events.filter Event.isXAdd =
            [Event.xadd (XAddValues L (StructToMap L
              ⟨payment.CorrelationId, payment.Amount, payment.Retry + 1⟩))] ∧
          r.store.stream = s.stream ++
            [XAddValues L (StructToMap L
              ⟨payment.CorrelationId, payment.Amount, payment.Retry + 1⟩)] ∧
          r.events.filter Event.isZAdd = [] ∧
          r.store.ledger = s.ledger ∧
          r.payment = ⟨payment.CorrelationId, payment.Amount, payment.Retry + 1⟩) := by
  by_cases h : payment.Retry > 3
  · exact ⟨_, ProcessPayment_drop L env s payment h, rfl, fun _ => ⟨rfl, rfl, rfl⟩,
      fun h3 => absurd h (by omega)⟩
  · have h3 : payment.Retry ≤ 3 := by omega
    obtain ⟨p, hp⟩ := getProvider_some env s hc
    cases hres : p.ProcessPayment env payment with
    | error e =>
      refine ⟨_, ProcessPayment_failure L env s payment p e h3 hp hres, rfl,
        fun h4 => absurd h4 h, ?_⟩
      intro _ provider e2 hp2 _
      have hpp : provider = p := by
        rw [hp] at hp2
        exact (Option.some.inj hp2).symm
      subst hpp
      refine ⟨?_, ?_, ?_, ?_, ?_, rfl⟩
      · simp only [List.filter_append, (getProvider_events env s).2.2]
        rfl
      · simp only [List.filter_append, (getProvider_events env s).1]
        rfl
      · simp only [QueuePayment, (getProvider_stream env s).1]
      · simp only [List.filter_append, (getProvider_events env s).2.1]
        rfl
      · simp only [QueuePayment, (getProvider_stream env s).2]
    | ok t =>
      refine ⟨_, ProcessPayment_success L env s payment p t h3 hp hres, rfl,
        fun h4 => absurd h4 h, ?_⟩
      intro _ provider e2 hp2 he2
      have hpp : provider = p := by
        rw [hp] at hp2
        exact (Option.some.inj hp2).symm
      subst hpp
      rw [hres] at he2
      cases he2

theorem cacheOK_emptyStore (F : Type) : CacheOK (emptyStore F) := by
  intro v e h
  cases h

/-- The fourth scenario of the specification, one attempt of it: the processor
answers 422 to a request with retry 3; and a request with retry 4 is dropped. -/
theorem ProcessPayment_absorbs_failure_witness :
    (∃ r, ProcessPayment Fixed2 (payEnv 422) (emptyStore Int) (samplePayment 3) = some r ∧
      r.err = none ∧
      r.events.filter Event.isXAdd = [Event.xadd ⟨"abc".toList, "19.9".toList, "4".toList⟩] ∧
      r.store.ledger = []) ∧
    (∃ r, ProcessPayment Fixed2 (payEnv 422) (emptyStore Int) (samplePayment 4) = some r ∧
      r.err = none ∧ r.events = [] ∧ r.payment.Retry = 4) := by
  constructor
  · obtain ⟨r, hr, herr, _, hfail⟩ :=
      ProcessPayment_absorbs_failure Fixed2 (payEnv 422) (emptyStore Int) (samplePayment 3)
        (cacheOK_emptyStore Int)
    obtain ⟨_, hx, _, _, hl, _⟩ :=
      hfail (by decide) defaultProvider ProviderError.unprocessableEntity (by decide) rfl
    exact ⟨r, hr, herr, hx, hl⟩
  · obtain ⟨r, hr, herr, hdrop, _⟩ :=
      ProcessPayment_absorbs_failure Fixed2 (payEnv 422) (emptyStore Int) (samplePayment 4)
        (cacheOK_emptyStore Int)
    obtain ⟨_, he, hp⟩ := hdrop (by decide)
    exact ⟨r, hr, herr, he, by rw [hp]; rfl⟩

theorem getProvider_no_xadd {F : Type} (env : Env) (s : Store F) (msg : StreamMsg) :
    Event.xadd msg ∉ (getProvider env s).2.2 := by
  intro hmem
  have h := (getProvider_events env s).1
  rw [List.filter_eq_nil_iff] at h
  exact h _ hmem rfl

/-- C7 (as amended): a record published by `ProcessPayment` is that of the
request with `Retry + 1`, and `Retry + 1 ≤ 4`; the record published by
`POST /payments` is that of the bound body, its retry as the client gave it. -/
theorem published_retry {F : Type} (L : Float64Lib F) (env : Env) (s : Store F)
    (payment : PaymentRequest F) :
    (∀ r msg, ProcessPayment L env s payment = some r → Event.xadd msg ∈ r.events →
      payment.Retry + 1 ≤ 4 ∧
      msg = XAddValues L (StructToMap L
        ⟨payment.CorrelationId, payment.Amount, payment.Retry + 1⟩)) ∧
    (∀ body : PaymentRequest F,
      postPayments L s (some body) =
        (202, ⟨s.stream ++ [XAddValues L (StructToMap L body)], s.ledger, s.cache⟩,
          [Event.xadd (XAddValues L (StructToMap L body))])) := by
  refine ⟨?_, fun body => rfl⟩
  intro r msg hr hmem
  by_cases h : payment.Retry > 3
  · rw [ProcessPayment_drop L env s payment h] at hr
    cases hr
    cases hmem
  · have h3 : payment.Retry ≤ 3 := by omega
    rcases hp : (getProvider env s).1 with _ | p
    · rcases hg : getProvider env s with ⟨p0, s1, ev1⟩
      rw [hg] at hp
      simp only at hp
      subst hp
      simp [ProcessPayment, h, hg] at hr
    · cases hres : p.ProcessPayment env payment with
      | error e =>
        rw [ProcessPayment_failure L env s payment p e h3 hp hres] at hr
        cases hr
        simp only [List.mem_append, List.mem_singleton, reduceCtorEq, or_false] at hmem
        rcases hmem with hmem | hmem
        · exact absurd hmem (getProvider_no_xadd env s msg)
        · exact ⟨by omega, Event.xadd.inj hmem⟩
      | ok t =>
        rw [ProcessPayment_success L env s payment p t h3 hp hres] at hr
        cases hr
        simp only [List.mem_append, List.mem_singleton, reduceCtorEq, or_false] at hmem
        exact absurd hmem (getProvider_no_xadd env s msg)

/-- A request with retry 3 whose submit fails is published again with retry 4. -/
theorem published_retry_witness :
    (3 : Int) + 1 ≤ 4 ∧
    (⟨"abc".toList, "19.9".toList, "4".toList⟩ : StreamMsg) =
      XAddValues Fixed2 (StructToMap Fixed2 ⟨"abc".toList, 1990, 3 + 1⟩) :=
  (published_retry Fixed2 (payEnv 422) (emptyStore Int) (samplePayment 3)).1
    ⟨⟨[⟨"abc".toList, "19.9".toList, "4".toList⟩], [], some (defaultId, 5000)⟩,
      [Event.cacheGet, Event.healthCheck defaultId, Event.healthCheck fallbackId,
        Event.cacheSet defaultId 5000, Event.submit defaultId (samplePayment 3),
        Event.xadd ⟨"abc".toList, "19.9".toList, "4".toList⟩],
      samplePayment 4, none⟩
    ⟨"abc".toList, "19.9".toList, "4".toList⟩ rfl (by simp)

/-- C7 (as stated) fails: a body with retry 7 is published by `POST /payments`
with retry 7, and a request with retry 3 whose submit fails is published again
with retry 4. -/
theorem published_retry_above_three :
    (postPayments Fixed2 (emptyStore Int) (some (samplePayment 7))).2.1.stream =
      [⟨"abc".toList, "19.9".toList, "7".toList⟩] ∧
    (ProcessPayment Fixed2 (payEnv 422) (emptyStore Int) (samplePayment 3)).map
        (fun r => r.store.stream) =
      some [⟨"abc".toList, "19.9".toList, "4".toList⟩] := by
  decide

/-! ## The member encoding (C4) -/

theorem stringsSplit_ne_nil (sep : Char) (s : GoString) : stringsSplit sep s ≠ [] := by
  cases s with
  | nil => simp [stringsSplit]
  | cons c cs =>
    unfold stringsSplit
    split
    · simp
    · split <;> simp

theorem stringsSplit_of_not_mem (sep : Char) (a : GoString) (h : sep ∉ a) :
    stringsSplit sep a = [a] := by
  induction a with
  | nil => rfl
  | cons c cs ih =>
    have hc : c ≠ sep := fun hc => h (by simp [hc])
    have hcs : sep ∉ cs := fun hm => h (List.mem_cons_of_mem _ hm)
    simp [stringsSplit, hc, ih hcs]

theorem stringsSplit_append (sep : Char) (a rest : GoString) (h : sep ∉ a) :
    stringsSplit sep (a ++ sep :: rest) = a :: stringsSplit sep rest := by
  induction a with
  | nil => simp [stringsSplit]
  | cons c cs ih =>
    have hc : c ≠ sep := fun hc => h (by simp [hc])
    have hcs : sep ∉ cs := fun hm => h (List.mem_cons_of_mem _ hm)
    simp [stringsSplit, hc, ih hcs]

theorem length_stringsSplit (sep : Char) (s : GoString) :
    (stringsSplit sep s).length = s.count sep + 1 := by
  induction s with
  | nil => rfl
  | cons c cs ih =>
    unfold stringsSplit
    by_cases hc : c = sep
    · subst hc
      simp [ih]
    · have hne : (c == sep) = false := by simpa using hc
      rw [if_neg hc, List.count_cons, hne]
      rcases hsp : stringsSplit sep cs with _ | ⟨p, ps⟩
      · exact absurd hsp (stringsSplit_ne_nil sep cs)
      · rw [hsp] at ih
        simpa using ih

theorem decode_invalidFormat {F : Type} (L : Float64Lib F) (s : GoString)
    (h : (stringsSplit ':' s).length ≠ 3) :
    FromStringToPaymentDetails L s = (PaymentDetails.empty L, some DecodeError.invalidFormat) := by
  unfold FromStringToPaymentDetails
  split
  · rename_i heq
    rw [heq] at h
    exact absurd rfl h
  · rfl

/-- A member whose correlation id or provider contains a colon does not decode. -/
theorem decode_fails_of_colon {F : Type} (L : Float64Lib F) (p : PaymentDetails F)
    (h : ':' ∈ p.CorrelationID ∨ ':' ∈ p.Provider) :
    FromStringToPaymentDetails L (MarshalBinary L p) =
      (PaymentDetails.empty L, some DecodeError.invalidFormat) := by
  apply decode_invalidFormat
  rw [length_stringsSplit]
  have h1 : 0 < p.CorrelationID.count ':' ∨ 0 < p.Provider.count ':' := by
    rcases h with h | h
    · exact Or.inl (List.count_pos_iff.mpr h)
    · exact Or.inr (List.count_pos_iff.mpr h)
  simp only [MarshalBinary, List.count_append, List.count_cons_self]
  omega

/-- The decoding of a marshalled record whose three fields contain no colon:
the correlation id and the provider come back as they are, and the amount is
what `ParseFloat` makes of the two-decimal text. -/
theorem decode_marshal_fields {F : Type} (L : Float64Lib F) (p : PaymentDetails F)
    (hid : ':' ∉ p.CorrelationID) (hprov : ':' ∉ p.Provider)
    (hfmt : ':' ∉ L.fmt2 p.Amount) :
    FromStringToPaymentDetails L (MarshalBinary L p) =
      match L.parseFloat (L.fmt2 p.Amount) with
      | some a => (⟨p.CorrelationID, a, p.Provider, Time.zero⟩, none)
      | none => (PaymentDetails.empty L, some DecodeError.invalidAmount) := by
  unfold FromStringToPaymentDetails MarshalBinary
  rw [stringsSplit_append _ _ _ hid, stringsSplit_append _ _ _ hfmt,
    stringsSplit_of_not_mem _ _ hprov]
  cases h : L.parseFloat (L.fmt2 p.Amount) <;> simp only [h]

/-! ## Rounding (C4) -/

theorem roundHalfEven_le (num den k : Nat) (hden : 0 < den) (h : num ≤ k * den) :
    roundHalfEven num den ≤ k := by
  have hq : num / den ≤ k := Nat.div_le_of_le_mul (by rwa [Nat.mul_comm] at h)
  rcases Nat.lt_or_ge (num / den) k with hlt | hge
  · unfold roundHalfEven
    split
    · omega
    · split
      · omega
      · split <;> omega
  · have hqk : num / den = k := Nat.le_antisymm hq hge
    have hmul : den * (num / den) + num % den = num := Nat.div_add_mod num den
    have hr : num % den = 0 := by
      rw [hqk, Nat.mul_comm] at hmul
      omega
    unfold roundHalfEven
    rw [hr, hqk]
    simp [hden]

theorem binaryDigitsAux_le (fuel : Nat) : ∀ n k : Nat, n < 2 ^ k → binaryDigitsAux fuel n ≤ k := by
  induction fuel with
  | zero => intro n k _; simp [binaryDigitsAux]
  | succ fuel ih =>
    intro n k hn
    unfold binaryDigitsAux
    split
    · omega
    · rename_i hn0
      cases k with
      | zero => simp at hn; exact absurd hn hn0
      | succ k =>
        have h2 : n / 2 < 2 ^ k := by
          rw [Nat.div_lt_iff_lt_mul (by decide)]
          rw [Nat.pow_succ] at hn
          exact hn
        have := ih (n / 2) k h2
        omega

theorem binaryExponent_le (N D : Nat)
    (h : N ≤ 9007199254740991 * 2 ^ 971 * D) : Float64.binaryExponent N D ≤ 1023 := by
  unfold Float64.binaryExponent
  split
  · have hq : N / D ≤ 9007199254740991 * 2 ^ 971 :=
      Nat.div_le_of_le_mul (by rwa [Nat.mul_comm] at h)
    have hlt : N / D < 2 ^ 1024 := lt_of_le_of_lt hq (by norm_num)
    have := binaryDigitsAux_le (N / D) (N / D) 1024 hlt
    unfold binaryDigits
    omega
  · omega

/-- A quotient of at most the largest float64 is rounded to a finite float64. -/
theorem nearest_finite (neg : Bool) (N D : Nat) (hD : 0 < D)
    (h : N ≤ 9007199254740991 * 2 ^ 971 * D) :
    ∃ m e, Float64.nearest neg N D = Float64.finite neg m e := by
  unfold Float64.nearest
  by_cases hN : N = 0
  · exact ⟨0, -1074, by simp [hN]⟩
  · have hE := binaryExponent_le N D h
    obtain ⟨e, he_def⟩ : ∃ e : Int, e = max (Float64.binaryExponent N D - 52) (-1074) := ⟨_, rfl⟩
    have he : e ≤ 971 := by
      rw [he_def]
      apply max_le <;> omega
    simp only [hN, if_false, ← he_def]
    by_cases hm : (if 0 ≤ e then roundHalfEven N (D * 2 ^ e.toNat)
        else roundHalfEven (N * 2 ^ (-e).toNat) D) = 9007199254740992
    · rw [if_pos hm]
      by_cases hov : e + 1 > 971
      · exfalso
        have he971 : e = 971 := by omega
        subst he971
        simp only [show (0 : Int) ≤ 971 by decide, if_true] at hm
        have hle := roundHalfEven_le N (D * 2 ^ (971 : Int).toNat) 9007199254740991
          (by positivity) (by
            have h971 : (971 : Int).toNat = 971 := rfl
            rw [h971]
            calc N ≤ 9007199254740991 * 2 ^ 971 * D := h
              _ = 9007199254740991 * (D * 2 ^ 971) := by ring)
        rw [hm] at hle
        exact absurd hle (by decide)
      · rw [if_neg hov]
        exact ⟨_, _, rfl⟩
    · rw [if_neg hm, if_neg (by omega)]
      exact ⟨_, _, rfl⟩

theorem hundredths_le (mant : Nat) (exp : Int) (bound : Nat) (hm : mant < 9007199254740992)
    (he : exp ≤ (bound : Int)) :
    Float64.hundredths mant exp ≤ 9007199254740991 * 2 ^ bound * 100 := by
  unfold Float64.hundredths
  split
  · rename_i h0
    have hexp : exp.toNat ≤ bound := by omega
    have hpow : 2 ^ exp.toNat ≤ 2 ^ bound := Nat.pow_le_pow_right Nat.two_pos hexp
    calc 100 * mant * 2 ^ exp.toNat ≤ 100 * 9007199254740991 * 2 ^ bound :=
          Nat.mul_le_mul (by omega) hpow
      _ = 9007199254740991 * 2 ^ bound * 100 := by ring
  · have hpos : 0 < 2 ^ (-exp).toNat := by positivity
    have h1 : roundHalfEven (100 * mant) (2 ^ (-exp).toNat) ≤ 100 * mant :=
      roundHalfEven_le _ _ _ hpos (Nat.le_mul_of_pos_right _ hpos)
    have h2 : 100 * mant ≤ 9007199254740991 * 1 * 100 := by omega
    have h3 : 9007199254740991 * 1 * 100 ≤ 9007199254740991 * 2 ^ bound * 100 :=
      Nat.mul_le_mul_right _ (Nat.mul_le_mul_left _ (Nat.one_le_two_pow))
    omega

/-! ## Decimal texts (C4) -/

theorem digitChar_digit (d : Nat) (hd : d < 10) :
    ('0' ≤ Nat.digitChar d ∧ Nat.digitChar d ≤ '9') ∧ (Nat.digitChar d).toNat - 48 = d := by
  interval_cases d <;> decide

theorem digit_ne (c x : Char) (hc : '0' ≤ c ∧ c ≤ '9') (hx : ¬ ('0' ≤ x ∧ x ≤ '9')) : x ≠ c := by
  intro h
  rw [h] at hx
  exact hx hc

theorem foldl_digits_toDigitsCore (fuel : Nat) :
    ∀ (n : Nat) (ds : GoString), n < fuel →
      digitsValue (Nat.toDigitsCore 10 fuel n ds) =
        ds.foldl
          (fun acc c =>
            match acc with
            | none => none
            | some n => if '0' ≤ c ∧ c ≤ '9' then some (n * 10 + (c.toNat - 48)) else none)
          (some n) := by
  induction fuel with
  | zero => intro n ds h; omega
  | succ fuel ih =>
    intro n ds h
    have hd := digitChar_digit (n % 10) (Nat.mod_lt _ (by decide))
    unfold Nat.toDigitsCore
    simp only []
    split
    · rename_i h0
      have hn : n % 10 = n := by omega
      simp only [digitsValue, List.foldl_cons, hd.1, and_self, if_true, hd.2, Nat.zero_mul,
        Nat.zero_add]
      rw [hn]
    · rename_i h0
      rw [ih (n / 10) _ (by omega)]
      simp only [List.foldl_cons, hd.1, and_self, if_true, hd.2]
      have hn : n / 10 * 10 + n % 10 = n := by omega
      rw [hn]

theorem digitsValue_toDigits (n : Nat) : digitsValue (Nat.toDigits 10 n) = some n := by
  unfold Nat.toDigits
  rw [foldl_digits_toDigitsCore (n + 1) n [] (by omega)]
  rfl

theorem mem_toDigitsCore (fuel : Nat) :
    ∀ (n : Nat) (ds : GoString) (c : Char), c ∈ Nat.toDigitsCore 10 fuel n ds →
      ('0' ≤ c ∧ c ≤ '9') ∨ c ∈ ds := by
  induction fuel with
  | zero => intro n ds c h; exact Or.inr h
  | succ fuel ih =>
    intro n ds c h
    have hd := digitChar_digit (n % 10) (Nat.mod_lt _ (by decide))
    unfold Nat.toDigitsCore at h
    simp only [] at h
    split at h
    · rcases List.mem_cons.mp h with h1 | h1
      · exact Or.inl (h1 ▸ hd.1)
      · exact Or.inr h1
    · rcases ih _ _ c h with h1 | h1
      · exact Or.inl h1
      · rcases List.mem_cons.mp h1 with h2 | h2
        · exact Or.inl (h2 ▸ hd.1)
        · exact Or.inr h2

theorem mem_toDigits (n : Nat) (c : Char) (h : c ∈ Nat.toDigits 10 n) : '0' ≤ c ∧ c ≤ '9' := by
  rcases mem_toDigitsCore (n + 1) n [] c h with h1 | h1
  · exact h1
  · cases h1

/-- The text `%.2f` prints for a number of hundredths. -/
theorem mem_twoDecimals (h : Nat) (c : Char)
    (hc : c ∈ Nat.toDigits 10 (h / 100) ++
      ['.', Nat.digitChar (h % 100 / 10), Nat.digitChar (h % 10)]) :
    ('0' ≤ c ∧ c ≤ '9') ∨ c = '.' := by
  rcases List.mem_append.mp hc with h1 | h1
  · exact Or.inl (mem_toDigits _ c h1)
  · simp only [List.mem_cons, List.mem_singleton, List.not_mem_nil, or_false] at h1
    rcases h1 with h1 | h1 | h1
    · exact Or.inr h1
    · exact Or.inl (h1 ▸ (digitChar_digit _ (by omega)).1)
    · exact Or.inl (h1 ▸ (digitChar_digit _ (by omega)).1)

theorem parseDecimal_twoDecimals (h : Nat) :
    Float64.parseDecimal (Nat.toDigits 10 (h / 100) ++
        ['.', Nat.digitChar (h % 100 / 10), Nat.digitChar (h % 10)]) =
      some (Float64.rangeChecked (Float64.nearest false h 100)) := by
  have hd1 := digitChar_digit (h % 100 / 10) (by omega)
  have hd2 := digitChar_digit (h % 10) (by omega)
  have hhead : ∀ x : Char, ¬ ('0' ≤ x ∧ x ≤ '9') → x ≠ '.' →
      (Nat.toDigits 10 (h / 100) ++
        ['.', Nat.digitChar (h % 100 / 10), Nat.digitChar (h % 10)]).head? ≠ some x := by
    intro x hx hdot hh
    have hmem := List.mem_of_mem_head? hh
    rcases mem_twoDecimals h x hmem with h1 | h1
    · exact hx h1
    · exact hdot h1
  have hdot : '.' ∉ Nat.toDigits 10 (h / 100) := by
    intro hm
    exact absurd (mem_toDigits _ _ hm) (by decide)
  have hfrac : '.' ∉ [Nat.digitChar (h % 100 / 10), Nat.digitChar (h % 10)] := by
    intro hm
    simp only [List.mem_cons, List.mem_singleton, List.not_mem_nil, or_false] at hm
    rcases hm with hm | hm
    · exact absurd (hm ▸ hd1.1) (by decide)
    · exact absurd (hm ▸ hd2.1) (by decide)
  unfold Float64.parseDecimal
  rw [if_neg (hhead '-' (by decide) (by decide)), if_neg (hhead '+' (by decide) (by decide))]
  unfold Float64.parseUnsignedDecimal
  rw [stringsSplit_append _ _ _ hdot, stringsSplit_of_not_mem _ _ hfrac]
  have hv2 : digitsValue [Nat.digitChar (h % 100 / 10), Nat.digitChar (h % 10)] =
      some (h % 100 / 10 * 10 + h % 10) := by
    simp only [digitsValue, List.foldl_cons, List.foldl_nil, hd1.1, hd2.1, and_self, if_true,
      hd1.2, hd2.2]
    simp
  simp only [digitsValue_toDigits, hv2, List.length_cons, List.length_nil]
  have hN : h / 100 * 100 + (h % 100 / 10 * 10 + h % 10) = h := by omega
  simp [hN]

theorem roundHalfEven_nearest (num den : Nat) (hden : 0 < den) :
    2 * (roundHalfEven num den * den) ≤ 2 * num + den ∧
    2 * num ≤ 2 * (roundHalfEven num den * den) + den := by
  have hmul : den * (num / den) + num % den = num := Nat.div_add_mod num den
  have hlt : num % den < den := Nat.mod_lt _ hden
  have hsucc : (num / den + 1) * den = den * (num / den) + den := by ring
  have hq : num / den * den = den * (num / den) := Nat.mul_comm _ _
  unfold roundHalfEven
  split
  · rw [hq]; omega
  · split
    · rw [hsucc]; omega
    · split
      · rw [hq]; omega
      · rw [hsucc]; omega

theorem fmt2_finiteNonneg (mant : Nat) (exp : Int) :
    Float64.fmt2 (Float64.finite false mant exp) =
      Nat.toDigits 10 (Float64.hundredths mant exp / 100) ++
        ['.', Nat.digitChar (Float64.hundredths mant exp % 100 / 10),
          Nat.digitChar (Float64.hundredths mant exp % 10)] := by
  simp [Float64.fmt2]

/-! ## Rounding to the nearest float64 (C4) -/

theorem roundHalfEven_ge (num den k : Nat) (hden : 0 < den) (h : k * den ≤ num) :
    k ≤ roundHalfEven num den := by
  have hq : k ≤ num / den := (Nat.le_div_iff_mul_le hden).mpr h
  unfold roundHalfEven
  split
  · exact hq
  · split
    · omega
    · split <;> omega

theorem binaryDigitsAux_zero (fuel : Nat) : binaryDigitsAux fuel 0 = 0 := by
  cases fuel <;> simp [binaryDigitsAux]

theorem binaryDigitsAux_spec (fuel : Nat) :
    ∀ n : Nat, 0 < n → n ≤ fuel →
      1 ≤ binaryDigitsAux fuel n ∧ 2 ^ (binaryDigitsAux fuel n - 1) ≤ n ∧
        n < 2 ^ binaryDigitsAux fuel n := by
  induction fuel with
  | zero => intro n h1 h2; omega
  | succ fuel ih =>
    intro n hn hle
    unfold binaryDigitsAux
    rw [if_neg (by omega)]
    by_cases h2 : n / 2 = 0
    · have h1 : n = 1 := by omega
      subst h1
      simp [binaryDigitsAux_zero]
    · obtain ⟨hb, hlo, hhi⟩ := ih (n / 2) (by omega) (by omega)
      refine ⟨by omega, ?_, ?_⟩
      · have hpow : 2 ^ (binaryDigitsAux fuel (n / 2) + 1 - 1) =
            2 * 2 ^ (binaryDigitsAux fuel (n / 2) - 1) := by
          rw [Nat.add_sub_cancel, ← Nat.pow_succ']
          congr 1
          omega
        rw [hpow]
        omega
      · rw [Nat.pow_succ]
        omega

theorem binaryDigits_spec (n : Nat) (hn : 0 < n) :
    1 ≤ binaryDigits n ∧ 2 ^ (binaryDigits n - 1) ≤ n ∧ n < 2 ^ binaryDigits n :=
  binaryDigitsAux_spec n n hn (Nat.le_refl n)

theorem binaryExponent_spec (N D : Nat) (hN : 0 < N) (hD : 0 < D) :
    (2 : ℚ) ^ Float64.binaryExponent N D ≤ (N : ℚ) / D ∧
    (N : ℚ) / D < (2 : ℚ) ^ (Float64.binaryExponent N D + 1) := by
  have hDq : (0 : ℚ) < D := by exact_mod_cast hD
  have hNq : (0 : ℚ) < N := by exact_mod_cast hN
  unfold Float64.binaryExponent
  split
  · rename_i hle
    have hq : 0 < N / D := Nat.div_pos hle hD
    obtain ⟨hb, hlo, hhi⟩ := binaryDigits_spec (N / D) hq
    obtain ⟨b, hbdef⟩ : ∃ b, b = binaryDigits (N / D) := ⟨_, rfl⟩
    rw [← hbdef] at hb hlo hhi ⊢
    have hE : ((b : ℤ) - 1) = ((b - 1 : ℕ) : ℤ) := by omega
    have hE1 : ((b : ℤ) - 1 + 1) = ((b : ℕ) : ℤ) := by omega
    rw [hE1, hE, zpow_natCast, zpow_natCast]
    constructor
    · have h1 : 2 ^ (b - 1) * D ≤ N := (Nat.le_div_iff_mul_le hD).mp hlo
      rw [le_div_iff₀ hDq]
      exact_mod_cast h1
    · have h1 : N < 2 ^ b * D := (Nat.div_lt_iff_lt_mul hD).mp hhi
      rw [div_lt_iff₀ hDq]
      exact_mod_cast h1
  · rename_i hlt
    have hq : 0 < (D - 1) / N := Nat.div_pos (by omega) hN
    obtain ⟨hb, hlo, hhi⟩ := binaryDigits_spec ((D - 1) / N) hq
    obtain ⟨k, hkdef⟩ : ∃ k, k = binaryDigits ((D - 1) / N) := ⟨_, rfl⟩
    rw [← hkdef] at hb hlo hhi ⊢
    have hE1 : (-(k : ℤ) + 1) = -((k - 1 : ℕ) : ℤ) := by omega
    rw [hE1, zpow_neg, zpow_neg, zpow_natCast, zpow_natCast]
    have hp : (0 : ℚ) < 2 ^ k := by positivity
    have hp1 : (0 : ℚ) < 2 ^ (k - 1) := by positivity
    constructor
    · have h1 : D - 1 < 2 ^ k * N := (Nat.div_lt_iff_lt_mul hN).mp hhi
      have h2 : D ≤ 2 ^ k * N := by omega
      rw [le_div_iff₀ hDq, inv_mul_le_iff₀ hp]
      exact_mod_cast h2
    · have h1 : 2 ^ (k - 1) * N ≤ D - 1 := (Nat.le_div_iff_mul_le hN).mp hlo
      have h2 : 2 ^ (k - 1) * N < D := by omega
      rw [div_lt_iff₀ hDq, lt_inv_mul_iff₀ hp1]
      exact_mod_cast h2

theorem roundHalfEven_rat (num den : Nat) (hden : 0 < den) :
    |(num : ℚ) / den - (roundHalfEven num den : ℚ)| ≤ 1 / 2 := by
  have hdq : (0 : ℚ) < den := by exact_mod_cast hden
  obtain ⟨h1, h2⟩ := roundHalfEven_nearest num den hden
  have h1q : (2 : ℚ) * ((roundHalfEven num den : ℚ) * den) ≤ 2 * num + den := by exact_mod_cast h1
  have h2q : (2 : ℚ) * num ≤ 2 * ((roundHalfEven num den : ℚ) * den) + den := by exact_mod_cast h2
  have hx : (num : ℚ) = (num : ℚ) / den * den := by field_simp
  rw [abs_le]
  constructor
  · by_contra hcon
    push_neg at hcon
    nlinarith
  · by_contra hcon
    push_neg at hcon
    nlinarith

theorem roundHalfEven_le_of_rat (num den k : Nat) (hden : 0 < den)
    (h : (num : ℚ) / den ≤ k) : roundHalfEven num den ≤ k := by
  have hdq : (0 : ℚ) < den := by exact_mod_cast hden
  rw [div_le_iff₀ hdq] at h
  exact roundHalfEven_le num den k hden (by exact_mod_cast h)

theorem roundHalfEven_ge_of_rat (num den k : Nat) (hden : 0 < den)
    (h : (k : ℚ) ≤ (num : ℚ) / den) : k ≤ roundHalfEven num den := by
  have hdq : (0 : ℚ) < den := by exact_mod_cast hden
  rw [le_div_iff₀ hdq] at h
  exact roundHalfEven_ge num den k hden (by exact_mod_cast h)

theorem scaled_quotient (N D : Nat) (e0 : ℤ) (hD : 0 < D) :
    ∃ num den : ℕ, 0 < den ∧
      (if 0 ≤ e0 then roundHalfEven N (D * 2 ^ e0.toNat)
        else roundHalfEven (N * 2 ^ (-e0).toNat) D) = roundHalfEven num den ∧
      (num : ℚ) / den = (N : ℚ) / D / (2 : ℚ) ^ e0 := by
  have hDq : (0 : ℚ) < D := by exact_mod_cast hD
  by_cases h0 : 0 ≤ e0
  · refine ⟨N, D * 2 ^ e0.toNat, by positivity, by rw [if_pos h0], ?_⟩
    have he : e0 = (e0.toNat : ℤ) := (Int.toNat_of_nonneg h0).symm
    rw [he, zpow_natCast, Int.toNat_natCast]
    push_cast
    rw [div_div]
  · refine ⟨N * 2 ^ (-e0).toNat, D, hD, by rw [if_neg h0], ?_⟩
    have he : e0 = -((-e0).toNat : ℤ) := by omega
    have hp : (0 : ℚ) < 2 ^ (-e0).toNat := by positivity
    rw [he, zpow_neg, zpow_natCast]
    simp only [neg_neg, Int.toNat_natCast]
    push_cast
    field_simp

/-- The rounding `Float64.nearest` is IEEE 754 rounding to nearest: a finite
result has a mantissa below `2 ^ 53` that is at least `2 ^ 52` unless the
exponent is the least one, an exponent from -1074 to 971, and lies within
half a unit of the last place of the quotient. -/
theorem nearest_spec (neg : Bool) (N D m : Nat) (e : ℤ) (hN : 0 < N) (hD : 0 < D)
    (h : Float64.nearest neg N D = Float64.finite neg m e) :
    m < 9007199254740992 ∧ (4503599627370496 ≤ m ∨ e = -1074) ∧ -1074 ≤ e ∧ e ≤ 971 ∧
      |(N : ℚ) / D - (m : ℚ) * (2 : ℚ) ^ e| ≤ (2 : ℚ) ^ e / 2 := by
  obtain ⟨hElo, hEhi⟩ := binaryExponent_spec N D hN hD
  obtain ⟨e0, he_def⟩ : ∃ e0 : ℤ, e0 = max (Float64.binaryExponent N D - 52) (-1074) := ⟨_, rfl⟩
  have he1 : Float64.binaryExponent N D - 52 ≤ e0 := by rw [he_def]; exact le_max_left _ _
  have he2 : -1074 ≤ e0 := by rw [he_def]; exact le_max_right _ _
  obtain ⟨num, den, hden, hm0, hy⟩ := scaled_quotient N D e0 hD
  have hP : (0 : ℚ) < (2 : ℚ) ^ e0 := by positivity
  have hclose := roundHalfEven_rat num den hden
  rw [hy] at hclose
  have hdist : |(N : ℚ) / D - (roundHalfEven num den : ℚ) * (2 : ℚ) ^ e0| ≤ (2 : ℚ) ^ e0 / 2 := by
    have hrw : (N : ℚ) / D - (roundHalfEven num den : ℚ) * (2 : ℚ) ^ e0 =
        ((N : ℚ) / D / (2 : ℚ) ^ e0 - (roundHalfEven num den : ℚ)) * (2 : ℚ) ^ e0 := by
      field_simp
      ring
    rw [hrw, abs_mul, abs_of_pos hP]
    calc |(N : ℚ) / D / (2 : ℚ) ^ e0 - (roundHalfEven num den : ℚ)| * (2 : ℚ) ^ e0
        ≤ 1 / 2 * (2 : ℚ) ^ e0 := mul_le_mul_of_nonneg_right hclose hP.le
      _ = (2 : ℚ) ^ e0 / 2 := by ring
  have hup : roundHalfEven num den ≤ 9007199254740992 := by
    apply roundHalfEven_le_of_rat num den _ hden
    rw [hy, div_le_iff₀ hP]
    have h1 : (2 : ℚ) ^ (Float64.binaryExponent N D + 1) ≤ (2 : ℚ) ^ (e0 + 53) :=
      zpow_le_zpow_right₀ (by norm_num) (by omega)
    have h2 : (2 : ℚ) ^ (e0 + 53) = ((9007199254740992 : ℕ) : ℚ) * (2 : ℚ) ^ e0 := by
      rw [zpow_add₀ (by norm_num)]
      norm_num
      ring
    exact le_of_lt (lt_of_lt_of_le hEhi (h1.trans h2.le))
  have hlow : Float64.binaryExponent N D - 52 = e0 →
      4503599627370496 ≤ roundHalfEven num den := by
    intro heq
    apply roundHalfEven_ge_of_rat num den _ hden
    rw [hy, le_div_iff₀ hP]
    have h2 : (2 : ℚ) ^ Float64.binaryExponent N D =
        ((4503599627370496 : ℕ) : ℚ) * (2 : ℚ) ^ e0 := by
      have : Float64.binaryExponent N D = e0 + 52 := by omega
      rw [this, zpow_add₀ (by norm_num)]
      norm_num
      ring
    exact h2 ▸ hElo
  unfold Float64.nearest at h
  simp only [Nat.ne_of_gt hN, if_false, ← he_def, hm0] at h
  by_cases hm : roundHalfEven num den = 9007199254740992
  · rw [if_pos hm] at h
    by_cases hov : e0 + 1 > 971
    · rw [if_pos hov] at h
      cases h
    · rw [if_neg hov] at h
      injection h with _ hmeq heeq
      subst hmeq
      subst heeq
      refine ⟨by decide, Or.inl (by decide), by omega, by omega, ?_⟩
      have hval : ((4503599627370496 : ℕ) : ℚ) * (2 : ℚ) ^ (e0 + 1) =
          (roundHalfEven num den : ℚ) * (2 : ℚ) ^ e0 := by
        rw [hm, zpow_add₀ (by norm_num)]
        norm_num
        ring
      rw [hval]
      have hgrow : (2 : ℚ) ^ e0 / 2 ≤ (2 : ℚ) ^ (e0 + 1) / 2 := by
        rw [zpow_add₀ (by norm_num)]
        norm_num
        linarith
      exact le_trans hdist hgrow
  · rw [if_neg hm] at h
    by_cases hov : e0 > 971
    · rw [if_pos hov] at h
      cases h
    · rw [if_neg hov] at h
      injection h with _ hmeq heeq
      subst hmeq
      subst heeq
      refine ⟨by omega, ?_, he2, by omega, hdist⟩
      rcases max_choice (Float64.binaryExponent N D - 52) (-1074) with hc | hc
      · exact Or.inl (hlow (by rw [he_def, hc]))
      · exact Or.inr (by rw [he_def, hc])

/-- The hundredths `%.2f` prints are within half a hundredth of the value. -/
theorem hundredths_spec (mant : Nat) (exp : ℤ) :
    |(100 : ℚ) * mant * (2 : ℚ) ^ exp - (Float64.hundredths mant exp : ℚ)| ≤ 1 / 2 := by
  unfold Float64.hundredths
  by_cases h0 : 0 ≤ exp
  · rw [if_pos h0]
    have he : exp = (exp.toNat : ℤ) := (Int.toNat_of_nonneg h0).symm
    have hz : (100 : ℚ) * mant * (2 : ℚ) ^ exp - ((100 * mant * 2 ^ exp.toNat : ℕ) : ℚ) = 0 := by
      rw [he, zpow_natCast, Int.toNat_natCast]
      push_cast
      ring
    rw [hz]
    norm_num
  · rw [if_neg h0]
    have he : exp = -((-exp).toNat : ℤ) := by omega
    have hp : (0 : ℚ) < 2 ^ (-exp).toNat := by positivity
    have hr := roundHalfEven_rat (100 * mant) (2 ^ (-exp).toNat) (by positivity)
    have hq : (100 : ℚ) * mant * (2 : ℚ) ^ exp =
        ((100 * mant : ℕ) : ℚ) / ((2 ^ (-exp).toNat : ℕ) : ℚ) := by
      rw [he, zpow_neg, zpow_natCast]
      simp only [neg_neg, Int.toNat_natCast]
      push_cast
      field_simp
    rw [hq]
    exact hr

/-- What rounding to two decimal places is: the result of `Float64.roundTo2` on
a finite non-negative float64 is the finite float64 that `Float64.nearest`
gives for `h / 100`, where `h` is a number of hundredths within half a
hundredth of the value. -/
theorem roundTo2_spec (mant : Nat) (exp : ℤ) (hm : mant < 9007199254740992) (he : exp ≤ 971) :
    ∃ (h m : Nat) (e : ℤ),
      Float64.roundTo2 (Float64.finite false mant exp) = Float64.finite false m e ∧
      |(100 : ℚ) * mant * (2 : ℚ) ^ exp - (h : ℚ)| ≤ 1 / 2 ∧
      (h = 0 → m = 0) ∧
      (0 < h → m < 9007199254740992 ∧ (4503599627370496 ≤ m ∨ e = -1074) ∧
        -1074 ≤ e ∧ e ≤ 971 ∧ |(h : ℚ) / (100 : ℕ) - (m : ℚ) * (2 : ℚ) ^ e| ≤ (2 : ℚ) ^ e / 2) := by
  obtain ⟨m, e, hfin⟩ := nearest_finite false (Float64.hundredths mant exp) 100 (by decide)
    (hundredths_le mant exp 971 hm he)
  refine ⟨Float64.hundredths mant exp, m, e, hfin, hundredths_spec mant exp, ?_, ?_⟩
  · intro h0
    rw [h0] at hfin
    have hz : Float64.nearest false 0 100 = Float64.finite false 0 (-1074) := by decide
    rw [hz] at hfin
    injection hfin with _ hmeq _
    exact hmeq.symm
  · intro hpos
    exact nearest_spec false _ 100 m e hpos (by decide) hfin

/-- C4 (as amended): for every processed payment `p` with a finite non-negative
amount whose correlation id and provider contain no colon,
`FromStringToPaymentDetails` applied to the text of `p.MarshalBinary()` returns
no error and the record with the correlation id and the provider of `p`, the
amount of `p` rounded to two decimal places (a finite float64, see
`roundTo2_spec`) and the zero timestamp. -/
theorem decode_marshal (rest : Float64Lib Float64) (p : PaymentDetails Float64)
    (hamount : p.Amount.IsFiniteNonneg)
    (hid : ':' ∉ p.CorrelationID) (hprov : ':' ∉ p.Provider) :
    FromStringToPaymentDetails (GoDecimal rest) (MarshalBinary (GoDecimal rest) p) =
      (⟨p.CorrelationID, p.Amount.roundTo2, p.Provider, Time.zero⟩, none) ∧
    ∃ mant exp, p.Amount.roundTo2 = Float64.finite false mant exp := by
  obtain ⟨mant, exp, ha, hm, he⟩ := hamount
  obtain ⟨m2, e2, hfin⟩ := nearest_finite false (Float64.hundredths mant exp) 100 (by decide)
    (hundredths_le mant exp 971 hm he)
  have hround : p.Amount.roundTo2 = Float64.finite false m2 e2 := by
    rw [ha]
    exact hfin
  have htext : (GoDecimal rest).fmt2 p.Amount =
      Nat.toDigits 10 (Float64.hundredths mant exp / 100) ++
        ['.', Nat.digitChar (Float64.hundredths mant exp % 100 / 10),
          Nat.digitChar (Float64.hundredths mant exp % 10)] := by
    rw [ha]
    exact fmt2_finiteNonneg mant exp
  have hcolon : ':' ∉ (GoDecimal rest).fmt2 p.Amount := by
    rw [htext]
    intro hmem
    rcases mem_twoDecimals _ _ hmem with h1 | h1
    · exact absurd h1 (by decide)
    · exact absurd h1 (by decide)
  have hparse : (GoDecimal rest).parseFloat ((GoDecimal rest).fmt2 p.Amount) =
      some p.Amount.roundTo2 := by
    rw [htext, hround]
    show (match Float64.parseDecimal _ with
      | some r => r
      | none => rest.parseFloat _) = _
    rw [parseDecimal_twoDecimals, hfin]
    rfl
  refine ⟨?_, m2, e2, hround⟩
  rw [decode_marshal_fields (GoDecimal rest) p hid hprov hcolon, hparse]

/-- The payment of the first scenario, `abc` with the float64 nearest to 19.90
and `default`, and a payment of 0.125, which is written as `0.12` and read back
as the float64 nearest to 0.12. -/
theorem decode_marshal_witness :
    (MarshalBinary (GoDecimal Fixed2.onFloat64)
        ⟨"abc".toList, Float64.finite false 5601352036542054 (-48), defaultId, ⟨1700000000, 0⟩⟩ =
      "abc:19.90:default".toList ∧
     FromStringToPaymentDetails (GoDecimal Fixed2.onFloat64)
        (MarshalBinary (GoDecimal Fixed2.onFloat64)
          ⟨"abc".toList, Float64.finite false 5601352036542054 (-48), defaultId,
            ⟨1700000000, 0⟩⟩) =
      (⟨"abc".toList, Float64.roundTo2 (Float64.finite false 5601352036542054 (-48)), defaultId,
        Time.zero⟩, none) ∧
     Float64.roundTo2 (Float64.finite false 5601352036542054 (-48)) =
      Float64.finite false 5601352036542054 (-48)) ∧
    (MarshalBinary (GoDecimal Fixed2.onFloat64)
        ⟨"abc".toList, Float64.finite false 1 (-3), defaultId, ⟨1700000000, 0⟩⟩ =
      "abc:0.12:default".toList ∧
     FromStringToPaymentDetails (GoDecimal Fixed2.onFloat64)
        (MarshalBinary (GoDecimal Fixed2.onFloat64)
          ⟨"abc".toList, Float64.finite false 1 (-3), defaultId, ⟨1700000000, 0⟩⟩) =
      (⟨"abc".toList, Float64.roundTo2 (Float64.finite false 1 (-3)), defaultId, Time.zero⟩,
        none) ∧
     Float64.roundTo2 (Float64.finite false 1 (-3)) =
      Float64.finite false 8646911284551352 (-56)) :=
  ⟨⟨by decide,
    (decode_marshal Fixed2.onFloat64
      ⟨"abc".toList, Float64.finite false 5601352036542054 (-48), defaultId, ⟨1700000000, 0⟩⟩
      ⟨5601352036542054, -48, rfl, by decide, by decide⟩ (by decide) (by decide)).1,
    by decide⟩,
   ⟨by decide,
    (decode_marshal Fixed2.onFloat64
      ⟨"abc".toList, Float64.finite false 1 (-3), defaultId, ⟨1700000000, 0⟩⟩
      ⟨1, -3, rfl, by decide, by decide⟩ (by decide) (by decide)).1,
    by decide⟩⟩

/-- Known values of the rounding: 0.1, 19.9, the tie `2 ^ 53 + 1`, and the
ties 0.125 and 0.375 of `%.2f`. -/
theorem nearest_known_values :
    Float64.nearest false 1 10 = Float64.finite false 7205759403792794 (-56) ∧
    Float64.nearest false 199 10 = Float64.finite false 5601352036542054 (-48) ∧
    Float64.nearest false 9007199254740993 1 = Float64.finite false 4503599627370496 1 ∧
    Float64.fmt2 (Float64.finite false 1 (-3)) = "0.12".toList ∧
    Float64.fmt2 (Float64.finite false 3 (-3)) = "0.38".toList := by
  decide

/-- C4 (as stated) fails: the payment with correlation id `a:b`, amount 1.00
and provider `default` is written as `a:b:1.00:default`, which has four
fields and does not decode. -/
theorem decode_marshal_colon :
    MarshalBinary Fixed2 ⟨"a:b".toList, 100, defaultId, ⟨1700000000, 0⟩⟩ =
      "a:b:1.00:default".toList ∧
    (FromStringToPaymentDetails Fixed2
        (MarshalBinary Fixed2 ⟨"a:b".toList, 100, defaultId, ⟨1700000000, 0⟩⟩)).2 =
      some DecodeError.invalidFormat ∧
    (FromStringToPaymentDetails Fixed2
        (MarshalBinary Fixed2 ⟨"a:b".toList, 100, defaultId, ⟨1700000000, 0⟩⟩)).1.CorrelationID
      ≠ "a:b".toList := by
  decide

/-! ## The summary (C10, C5) -/

theorem decode_error_empty {F : Type} (L : Float64Lib F) (m : GoString)
    (h : (FromStringToPaymentDetails L m).2 ≠ none) :
    (FromStringToPaymentDetails L m).1 = PaymentDetails.empty L := by
  unfold FromStringToPaymentDetails at h ⊢
  split
  · rename_i heq
    simp only [heq] at h
    split
    · rfl
    · rename_i hp
      simp [hp] at h
  · rfl

/-- The decoding fails exactly when the member does not have three fields or
its second field is not read by `ParseFloat`. -/
theorem decode_error_iff {F : Type} (L : Float64Lib F) (m : GoString) :
    (FromStringToPaymentDetails L m).2 ≠ none ↔
      ((stringsSplit ':' m).length ≠ 3 ∨
        ∃ p0 p1 p2, stringsSplit ':' m = [p0, p1, p2] ∧ L.parseFloat p1 = none) := by
  unfold FromStringToPaymentDetails
  split
  · rename_i p0 p1 p2 heq
    cases hp : L.parseFloat p1 with
    | none =>
      simp only [ne_eq, reduceCtorEq, not_false_eq_true, true_iff]
      exact Or.inr ⟨p0, p1, p2, heq, hp⟩
    | some a =>
      simp only [ne_eq, not_true_eq_false, false_iff, not_or, not_not]
      refine ⟨by rw [heq]; rfl, ?_⟩
      rintro ⟨q0, q1, q2, hq, hnone⟩
      rw [heq] at hq
      simp only [List.cons.injEq, and_true] at hq
      rw [← hq.2.1, hp] at hnone
      cases hnone
  · rename_i hne
    constructor
    · intro _
      left
      intro hlen
      rcases hsp : stringsSplit ':' m with _ | ⟨a, _ | ⟨b, _ | ⟨c, _ | ⟨d, l⟩⟩⟩⟩ <;>
        simp [hsp] at hlen
      exact hne a b c hsp
    · intro _
      simp

theorem provider_eq_iff_decodesTo {F : Type} (L : Float64Lib F) (prov m : GoString)
    (hprov : prov ≠ []) :
    (FromStringToPaymentDetails L m).1.Provider = prov ↔ decodesTo L prov m = true := by
  unfold decodesTo
  by_cases herr : (FromStringToPaymentDetails L m).2 = none
  · simp [herr]
  · have hempty := decode_error_empty L m herr
    simp only [herr, decide_False, Bool.false_and, Bool.false_eq_true, iff_false, hempty,
      PaymentDetails.empty]
    exact fun h => hprov h.symm

theorem summaryStep_skip {F : Type} (L : Float64Lib F) (acc : PaymentSummaryResponse F)
    (m : GoString)
    (h : (FromStringToPaymentDetails L m).2 ≠ none ∨
      ((FromStringToPaymentDetails L m).1.Provider ≠ defaultId ∧
        (FromStringToPaymentDetails L m).1.Provider ≠ fallbackId)) :
    summaryStep L acc m = acc := by
  have h2 : (FromStringToPaymentDetails L m).1.Provider ≠ defaultId ∧
      (FromStringToPaymentDetails L m).1.Provider ≠ fallbackId := by
    rcases h with h | h
    · rw [decode_error_empty L m h]
      exact ⟨fun h0 => absurd h0 (by decide : ([] : GoString) ≠ defaultId),
        fun h0 => absurd h0 (by decide : ([] : GoString) ≠ fallbackId)⟩
    · exact h
  simp [summaryStep, h2.1, h2.2]

/-- C10: a member on which `FromStringToPaymentDetails` returns an error, or
which decodes to a provider that is neither `default` nor `fallback`, changes
nothing in the summary: the loop of `GetSummary` gives the same counts and
totals over a list of members as over the list without that member, and so
does `GetSummary` when the range query returns such a list. -/
theorem summarize_skips_member {F : Type} (L : Float64Lib F) (xs ys : List GoString)
    (m : GoString)
    (h : (FromStringToPaymentDetails L m).2 ≠ none ∨
      ((FromStringToPaymentDetails L m).1.Provider ≠ defaultId ∧
        (FromStringToPaymentDetails L m).1.Provider ≠ fallbackId)) :
    summarize L (xs ++ m :: ys) = summarize L (xs ++ ys) ∧
    ∀ (s : Store F) (fromT toT : Time),
      ZRangeByScore L s.ledger (summaryRange fromT toT) = xs ++ m :: ys →
      GetSummary L s fromT toT = summarize L (xs ++ ys) := by
  have hsum : summarize L (xs ++ m :: ys) = summarize L (xs ++ ys) := by
    simp only [summarize, List.foldl_append, List.foldl_cons, summaryStep_skip L _ m h]
  refine ⟨hsum, ?_⟩
  intro s fromT toT hvalues
  simp only [GetSummary, hvalues, hsum]

/-- Members with two fields, with an amount that is no number and with an
unknown provider are skipped between two valid members. -/
theorem summarize_skips_member_witness :
    summarize Fixed2 ["a:1.00:default".toList, "a:1.00".toList, "b:2.00:fallback".toList] =
      summarize Fixed2 ["a:1.00:default".toList, "b:2.00:fallback".toList] ∧
    summarize Fixed2 ["a:1.00:default".toList, "a:x:default".toList, "b:2.00:fallback".toList] =
      summarize Fixed2 ["a:1.00:default".toList, "b:2.00:fallback".toList] ∧
    summarize Fixed2 ["a:1.00:default".toList, "a:1.00:other".toList, "b:2.00:fallback".toList] =
      summarize Fixed2 ["a:1.00:default".toList, "b:2.00:fallback".toList] ∧
    summarize Fixed2 ["a:1.00:default".toList, "b:2.00:fallback".toList] = ⟨⟨1, 100⟩, ⟨1, 200⟩⟩ :=
  ⟨(summarize_skips_member Fixed2 ["a:1.00:default".toList] ["b:2.00:fallback".toList]
      "a:1.00".toList (by decide)).1,
   (summarize_skips_member Fixed2 ["a:1.00:default".toList] ["b:2.00:fallback".toList]
      "a:x:default".toList (by decide)).1,
   (summarize_skips_member Fixed2 ["a:1.00:default".toList] ["b:2.00:fallback".toList]
      "a:1.00:other".toList (by decide)).1,
   by decide⟩

theorem foldl_summaryStep {F : Type} (L : Float64Lib F) (vs : List GoString)
    (acc : PaymentSummaryResponse F) :
    vs.foldl (summaryStep L) acc =
      ⟨⟨acc.Default.TotalRequests + (vs.filter (decodesTo L defaultId)).length,
        ((vs.filter (decodesTo L defaultId)).map (decodedAmount L)).foldl L.add
          acc.Default.TotalAmount⟩,
       ⟨acc.Fallback.TotalRequests + (vs.filter (decodesTo L fallbackId)).length,
        ((vs.filter (decodesTo L fallbackId)).map (decodedAmount L)).foldl L.add
          acc.Fallback.TotalAmount⟩⟩ := by
  induction vs generalizing acc with
  | nil => rfl
  | cons v vs ih =>
    rw [List.foldl_cons, ih]
    have hd := provider_eq_iff_decodesTo L defaultId v (by decide)
    have hf := provider_eq_iff_decodesTo L fallbackId v (by decide)
    have hne : fallbackId ≠ defaultId := by decide
    by_cases h1 : (FromStringToPaymentDetails L v).1.Provider = defaultId
    · have h2 : ¬ (FromStringToPaymentDetails L v).1.Provider = fallbackId := by
        rw [h1]; decide
      have e1 : decodesTo L defaultId v = true := hd.mp h1
      have e2 : decodesTo L fallbackId v = false := by
        simpa using fun h => h2 (hf.mpr h)
      simp [summaryStep, h1, e1, e2, decodedAmount, Nat.add_assoc, Nat.add_comm 1]
    · by_cases h2 : (FromStringToPaymentDetails L v).1.Provider = fallbackId
      · have e1 : decodesTo L defaultId v = false := by
          simpa using fun h => h1 (hd.mpr h)
        have e2 : decodesTo L fallbackId v = true := hf.mp h2
        simp [summaryStep, h2, hne, e1, e2, decodedAmount, Nat.add_assoc, Nat.add_comm 1]
      · have e1 : decodesTo L defaultId v = false := by
          simpa using fun h => h1 (hd.mpr h)
        have e2 : decodesTo L fallbackId v = false := by
          simpa using fun h => h2 (hf.mpr h)
        simp [summaryStep, h1, h2, e1, e2]

theorem contains_summaryRange {F : Type} (L : Float64Lib F) (fromT toT : Time) (score : F) :
    (summaryRange fromT toT).contains L score = specInRange L fromT toT score := by
  unfold summaryRange specInRange specLower specUpper ZRangeBy.contains
  cases fromT.IsZero <;> cases toT.IsZero <;> simp

theorem summary_of_selected {F : Type} (L : Float64Lib F) (ledger : List (F × GoString))
    (fromT toT : Time) (prov : GoString) :
    (ZRangeByScore L ledger (summaryRange fromT toT)).filter (decodesTo L prov) =
      (specSelected L ledger fromT toT prov).map (fun e => e.2) := by
  unfold ZRangeByScore specSelected
  induction ledger with
  | nil => rfl
  | cons e es ih =>
    simp only [List.filter_cons, contains_summaryRange]
    cases h1 : specInRange L fromT toT e.1 <;> cases h2 : decodesTo L prov e.2 <;>
      simp_all [List.filter_cons, contains_summaryRange]

/-- C5: for every ledger and every pair of bounds, `GetSummary` returns for
`default` and for `fallback` the number of ledger entries whose score lies in
the inclusive range of the bounds (open where the bound is the zero instant)
and whose member decodes to that provider, and the sum of their decoded
amounts. -/
theorem GetSummary_eq_specSummary {F : Type} (L : Float64Lib F) (s : Store F) (fromT toT : Time) :
    GetSummary L s fromT toT =
      ⟨specSummary L s.ledger fromT toT defaultId, specSummary L s.ledger fromT toT fallbackId⟩ := by
  unfold GetSummary summarize specSummary
  rw [foldl_summaryStep]
  simp only [summary_of_selected, List.length_map, List.map_map, Nat.zero_add]
  rfl

/-- The fifth scenario of the specification: entries at the scores 1000000,
2000000 and 3000000 of default, fallback, default with amounts 1, 2, 3; from
2000000 with no upper bound the summary is 1 and 3.00 for default, 1 and 2.00
for fallback. -/
theorem GetSummary_eq_specSummary_witness :
    GetSummary Fixed2
        ⟨[], [(Fixed2.ofInt64 1000000, "a:1.00:default".toList),
              (Fixed2.ofInt64 2000000, "b:2.00:fallback".toList),
              (Fixed2.ofInt64 3000000, "c:3.00:default".toList)], none⟩
        ⟨2, 0⟩ Time.zero =
      ⟨⟨1, 300⟩, ⟨1, 200⟩⟩ ∧
    Time.UnixMicro ⟨2, 0⟩ = 2000000 := by
  rw [GetSummary_eq_specSummary]
  decide

/-! ## The ledger as a set of members (C8) -/

theorem zinsert_perm {F : Type} (L : Float64Lib F) (x : F × GoString) (l : List (F × GoString)) :
    (zinsert L x l).Perm (x :: l) := by
  induction l with
  | nil => exact List.Perm.refl _
  | cons y ys ih =>
    unfold zinsert
    split
    · exact List.Perm.refl _
    · exact (List.Perm.cons y ih).trans (List.Perm.swap x y ys)

theorem ZAdd_perm {F : Type} (L : Float64Lib F) (ledger : List (F × GoString)) (score : F)
    (member : GoString) :
    (ZAdd L ledger score member).Perm
      ((score, member) :: ledger.filter (fun e => decide (e.2 ≠ member))) :=
  zinsert_perm L _ _

theorem filter_ZAdd {F : Type} (L : Float64Lib F) (ledger : List (F × GoString)) (score : F)
    (member : GoString) :
    ((ZAdd L ledger score member).filter (fun e => decide (e.2 ≠ member))).Perm
      (ledger.filter (fun e => decide (e.2 ≠ member))) := by
  refine ((ZAdd_perm L ledger score member).filter _).trans ?_
  simp [List.filter_cons, List.filter_filter]

theorem ZAdd_twice_perm {F : Type} (L : Float64Lib F) (ledger : List (F × GoString))
    (score score2 : F) (member : GoString) :
    ((ZAdd L (ZAdd L ledger score member) score2 member).map (fun e => e.2)).Perm
      ((ZAdd L ledger score member).map (fun e => e.2)) := by
  have h1 := (ZAdd_perm L (ZAdd L ledger score member) score2 member).trans
    (List.Perm.cons (score2, member) (filter_ZAdd L ledger score member))
  have h2 := ZAdd_perm L ledger score member
  have h3 := h1.map (fun e : F × GoString => e.2)
  have h4 := h2.map (fun e : F × GoString => e.2)
  simp only [List.map_cons] at h3 h4
  exact h3.trans h4.symm

theorem ZRangeByScore_open {F : Type} (L : Float64Lib F) (ledger : List (F × GoString)) :
    ZRangeByScore L ledger (summaryRange Time.zero Time.zero) = ledger.map (fun e => e.2) := by
  have h : ∀ score : F, (summaryRange Time.zero Time.zero).contains L score = true := by
    intro score
    rfl
  simp [ZRangeByScore, h]

theorem TotalRequests_summarize {F : Type} (L : Float64Lib F) (vs : List GoString) :
    (summarize L vs).Default.TotalRequests = (vs.filter (decodesTo L defaultId)).length ∧
    (summarize L vs).Fallback.TotalRequests = (vs.filter (decodesTo L fallbackId)).length := by
  unfold summarize
  rw [foldl_summaryStep]
  simp

/-- C8 (as amended): an append to the ledger leaves every entry with another
member present, makes the entry of the payment present, adds no other entry,
and leaves as many entries as there were with another member, plus one: the
number of entries grows by one exactly when the member was not in the ledger,
and an entry with the same member is replaced, its score updated.  A payment
appended a second time with the same correlation id, amount and provider is
counted once by `GetSummary` with open bounds. -/
theorem pubPaymentSummary_member_identity {F : Type} (L : Float64Lib F) (s : Store F)
    (p : PaymentDetails F) :
    (∀ e ∈ s.ledger, e.2 ≠ MarshalBinary L p → e ∈ (pubPaymentSummary L s p).1.ledger) ∧
    (L.ofInt64 p.ProcessedAt.UnixMicro, MarshalBinary L p) ∈ (pubPaymentSummary L s p).1.ledger ∧
    (∀ e ∈ (pubPaymentSummary L s p).1.ledger,
      e = (L.ofInt64 p.ProcessedAt.UnixMicro, MarshalBinary L p) ∨
        (e ∈ s.ledger ∧ e.2 ≠ MarshalBinary L p)) ∧
    (pubPaymentSummary L s p).1.ledger.length =
      (s.ledger.filter (fun e => decide (e.2 ≠ MarshalBinary L p))).length + 1 ∧
    ((∀ e ∈ s.ledger, e.2 ≠ MarshalBinary L p) →
      (pubPaymentSummary L s p).1.ledger.length = s.ledger.length + 1) ∧
    (∀ p2 : PaymentDetails F, MarshalBinary L p2 = MarshalBinary L p →
      (pubPaymentSummary L (pubPaymentSummary L s p).1 p2).1.ledger.length =
        (pubPaymentSummary L s p).1.ledger.length ∧
      (GetSummary L (pubPaymentSummary L (pubPaymentSummary L s p).1 p2).1
          Time.zero Time.zero).Default.TotalRequests =
        (GetSummary L (pubPaymentSummary L s p).1 Time.zero Time.zero).Default.TotalRequests ∧
      (GetSummary L (pubPaymentSummary L (pubPaymentSummary L s p).1 p2).1
          Time.zero Time.zero).Fallback.TotalRequests =
        (GetSummary L (pubPaymentSummary L s p).1 Time.zero Time.zero).Fallback.TotalRequests) := by
  have hperm := ZAdd_perm L s.ledger (L.ofInt64 p.ProcessedAt.UnixMicro) (MarshalBinary L p)
  have hmem : ∀ e, e ∈ (pubPaymentSummary L s p).1.ledger ↔
      e = (L.ofInt64 p.ProcessedAt.UnixMicro, MarshalBinary L p) ∨
        (e ∈ s.ledger ∧ e.2 ≠ MarshalBinary L p) := by
    intro e
    simp only [pubPaymentSummary]
    rw [hperm.mem_iff]
    simp
  have hlen : (pubPaymentSummary L s p).1.ledger.length =
      (s.ledger.filter (fun e => decide (e.2 ≠ MarshalBinary L p))).length + 1 := by
    simp only [pubPaymentSummary]
    rw [hperm.length_eq]
    rfl
  refine ⟨fun e he hne => (hmem e).mpr (Or.inr ⟨he, hne⟩), (hmem _).mpr (Or.inl rfl),
    fun e he => (hmem e).mp he, hlen, ?_, ?_⟩
  · intro hall
    rw [hlen, List.filter_eq_self.mpr]
    intro e he
    simpa using hall e he
  · intro p2 hp2
    have hmap := ZAdd_twice_perm L s.ledger (L.ofInt64 p.ProcessedAt.UnixMicro)
      (L.ofInt64 p2.ProcessedAt.UnixMicro) (MarshalBinary L p)
    refine ⟨?_, ?_, ?_⟩
    · simp only [pubPaymentSummary, hp2]
      simpa using hmap.length_eq
    · simp only [GetSummary, ZRangeByScore_open, (TotalRequests_summarize L _).1,
        pubPaymentSummary, hp2]
      exact (hmap.filter _).length_eq
    · simp only [GetSummary, ZRangeByScore_open, (TotalRequests_summarize L _).2,
        pubPaymentSummary, hp2]
      exact (hmap.filter _).length_eq

/-- C8 (as stated) fails: the payment `abc`, 19.90, `default` is appended at
the instant 1 s and again at the instant 2 s; the ledger then has one entry,
the entry of the first append is no longer present, and `GetSummary` with
open bounds counts one request. -/
theorem pubPaymentSummary_duplicate :
    (pubPaymentSummary Fixed2 (emptyStore Int) ⟨"abc".toList, 1990, defaultId, ⟨1, 0⟩⟩).1.ledger =
      [(Fixed2.ofInt64 1000000, "abc:19.90:default".toList)] ∧
    (pubPaymentSummary Fixed2
        (pubPaymentSummary Fixed2 (emptyStore Int) ⟨"abc".toList, 1990, defaultId, ⟨1, 0⟩⟩).1
        ⟨"abc".toList, 1990, defaultId, ⟨2, 0⟩⟩).1.ledger =
      [(Fixed2.ofInt64 2000000, "abc:19.90:default".toList)] ∧
    (GetSummary Fixed2
        (pubPaymentSummary Fixed2
          (pubPaymentSummary Fixed2 (emptyStore Int) ⟨"abc".toList, 1990, defaultId, ⟨1, 0⟩⟩).1
          ⟨"abc".toList, 1990, defaultId, ⟨2, 0⟩⟩).1
        Time.zero Time.zero).Default.TotalRequests = 1 := by
  decide

/-! ## The retry counter through the queue (C1) -/

theorem submittedRetries_getProvider {F : Type} (env : Env) (s : Store F) :
    submittedRetries (getProvider env s).2.2 = [] := by
  by_cases hmiss : cacheGet env.redisNow s.cache = []
  · rw [getProvider_miss env s hmiss]
    rfl
  · simp only [getProvider, hmiss, ne_eq, not_false_eq_true, if_true]
    rfl

theorem submittedRetries_append {F : Type} (a b : List (Event F)) :
    submittedRetries (a ++ b) = submittedRetries a ++ submittedRetries b := by
  simp [submittedRetries, List.filterMap_append]

/-- One round of the worker loop on a stream that holds one record of the
payment: the handler sees retry 0, submits, fails and publishes one record
of the payment again. -/
theorem worker_round {F : Type} (L : Float64Lib F) (envs : Nat → Env)
    (cid : GoString) (amount : F) (retryText : GoString) (run : WorkerRun F)
    (hparse : L.parseFloat (L.fmtShortest amount) = some amount)
    (hfail : ∀ k p, ∃ e, doRequest ((envs k).payReply p) false = Except.error e)
    (hstatus : run.status = WorkerStatus.running)
    (hstream : run.store.stream = [⟨cid, L.fmtShortest amount, retryText⟩])
    (hledger : run.store.ledger = []) (hcache : CacheOK run.store) :
    ∃ run2 : WorkerRun F,
      (∀ n, workerMain L envs (n + 1) run = workerMain L envs n run2) ∧
      run2.status = WorkerStatus.running ∧
      run2.store.stream = [⟨cid, L.fmtShortest amount, L.fmtShortest (L.ofInt64 1)⟩] ∧
      run2.store.ledger = [] ∧ CacheOK run2.store ∧
      submittedRetries run2.events = submittedRetries run.events ++ [0] := by
  have hdec : decodeMessage L ⟨cid, L.fmtShortest amount, retryText⟩ = some ⟨cid, amount, 0⟩ := by
    simp [decodeMessage, hparse]
  have hc1 : CacheOK ({ run.store with stream := [] } : Store F) := hcache
  obtain ⟨p, hp⟩ := getProvider_some (envs run.handled) ({ run.store with stream := [] } : Store F) hc1
  obtain ⟨e, he⟩ := hfail run.handled p
  have hsub : p.ProcessPayment (envs run.handled) (⟨cid, amount, 0⟩ : PaymentRequest F) =
      Except.error e := by
    simp [Provider.ProcessPayment, he]
  have hproc := ProcessPayment_failure L (envs run.handled)
    ({ run.store with stream := [] } : Store F) ⟨cid, amount, 0⟩ p e
    (by show (0 : Int) ≤ 3; decide) hp hsub
  have hh : handleMessage L envs
      { run with store := ({ run.store with stream := [] } : Store F) }
      ⟨cid, L.fmtShortest amount, retryText⟩ =
      ⟨(QueuePayment L (getProvider (envs run.handled)
          ({ run.store with stream := [] } : Store F)).2.1 ⟨cid, amount, 0 + 1⟩).1,
        run.events ++ ((getProvider (envs run.handled)
          ({ run.store with stream := [] } : Store F)).2.2 ++
            [Event.submit p.GetID ⟨cid, amount, 0⟩] ++
            [Event.xadd (XAddValues L (StructToMap L ⟨cid, amount, 0 + 1⟩))]),
        run.handled + 1, WorkerStatus.running⟩ := by
    rw [handleMessage]
    simp only [hstatus, ne_eq, not_true_eq_false, if_false, hdec, hproc]
  refine ⟨handleMessage L envs
      { run with store := ({ run.store with stream := [] } : Store F) }
      ⟨cid, L.fmtShortest amount, retryText⟩, ?_, ?_⟩
  · intro n
    rw [workerMain]
    simp only [hstatus, ne_eq, not_true_eq_false, if_false, hstream, List.take_succ_cons,
      List.take_nil, List.drop_succ_cons, List.drop_nil, List.foldl_cons, List.foldl_nil]
  · rw [hh]
    refine ⟨rfl, ?_, ?_, ?_, ?_⟩
    · simp only [QueuePayment, (getProvider_stream _ _).1]
      rfl
    · simp only [QueuePayment, (getProvider_stream _ _).2]
      exact hledger
    · have h := cacheOK_getProvider (envs run.handled)
        ({ run.store with stream := [] } : Store F) hc1
      exact h
    · simp only [submittedRetries_append, submittedRetries_getProvider]
      rfl

theorem worker_rounds {F : Type} (L : Float64Lib F) (envs : Nat → Env)
    (cid : GoString) (amount : F)
    (hparse : L.parseFloat (L.fmtShortest amount) = some amount)
    (hfail : ∀ k p, ∃ e, doRequest ((envs k).payReply p) false = Except.error e) (n : Nat) :
    ∀ (retryText : GoString) (run : WorkerRun F),
      run.status = WorkerStatus.running →
      run.store.stream = [⟨cid, L.fmtShortest amount, retryText⟩] →
      run.store.ledger = [] → CacheOK run.store →
      (workerMain L envs n run).status = WorkerStatus.running ∧
      (workerMain L envs n run).store.stream.length = 1 ∧
      (workerMain L envs n run).store.ledger = [] ∧
      submittedRetries (workerMain L envs n run).events =
        submittedRetries run.events ++ List.replicate n 0 := by
  induction n with
  | zero =>
    intro retryText run hs hst hl _
    simp [workerMain, hs, hst, hl]
  | succ n ih =>
    intro retryText run hs hst hl hc
    obtain ⟨run2, hstep, h1, h2, h3, h4, h5⟩ :=
      worker_round L envs cid amount retryText run hparse hfail hs hst hl hc
    rw [hstep n]
    obtain ⟨i1, i2, i3, i4⟩ := ih _ run2 h1 h2 h3 h4
    refine ⟨i1, i2, i3, ?_⟩
    rw [i4, h5, List.append_assoc]
    rfl

/-- C1 fails on the code: for a payment published by the ingress whose submit
fails at every attempt, after `n` rounds of the dequeue loop the worker is
still running, the handler has made `n` submits and had the retry value 0 in
hand at each of them, one record of the payment is in the queue again and the
ledger is empty.  The retry value of the record is never read back, so no copy
is ever dropped. -/
theorem worker_retries_without_bound {F : Type} (L : Float64Lib F) (envs : Nat → Env)
    (payment : PaymentRequest F) (n : Nat)
    (hparse : L.parseFloat (L.fmtShortest payment.Amount) = some payment.Amount)
    (hfail : ∀ k p, ∃ e, doRequest ((envs k).payReply p) false = Except.error e) :
    (workerMain L envs n (startRun L payment)).status = WorkerStatus.running ∧
    (workerMain L envs n (startRun L payment)).store.stream.length = 1 ∧
    (workerMain L envs n (startRun L payment)).store.ledger = [] ∧
    submittedRetries (workerMain L envs n (startRun L payment)).events = List.replicate n 0 := by
  have h := worker_rounds L envs payment.CorrelationId payment.Amount hparse hfail n
    (L.fmtShortest (L.ofInt64 payment.Retry)) (startRun L payment) rfl rfl rfl
    (cacheOK_emptyStore F)
  simpa [startRun] using h

/-- The fourth scenario of the specification run for six rounds: the processor
answers 422 every time, and the handler submits six times, each time with
retry 0. -/
theorem worker_retries_without_bound_witness :
    (workerMain Fixed2 (fun _ => payEnv 422) 6 (startRun Fixed2 (samplePayment 0))).status =
      WorkerStatus.running ∧
    (workerMain Fixed2 (fun _ => payEnv 422) 6 (startRun Fixed2 (samplePayment 0))).store.stream.length
      = 1 ∧
    (workerMain Fixed2 (fun _ => payEnv 422) 6 (startRun Fixed2 (samplePayment 0))).store.ledger
      = [] ∧
    submittedRetries (workerMain Fixed2 (fun _ => payEnv 422) 6
      (startRun Fixed2 (samplePayment 0))).events = List.replicate 6 0 :=
  worker_retries_without_bound Fixed2 (fun _ => payEnv 422) (samplePayment 0) 6 (by decide)
    (fun _ _ => ⟨ProviderError.unprocessableEntity, rfl⟩)

/-- The same run evaluated: after five rounds the handler has submitted five
times with the retry values 0, 0, 0, 0, 0 (the specification has 0, 1, 2, 3
and then a drop), and the record in the queue carries retry 1. -/
theorem worker_five_rounds :
    submittedRetries (workerMain Fixed2 (fun _ => payEnv 422) 5
      (startRun Fixed2 (samplePayment 0))).events = [0, 0, 0, 0, 0] ∧
    (workerMain Fixed2 (fun _ => payEnv 422) 5 (startRun Fixed2 (samplePayment 0))).store.stream =
      [⟨"abc".toList, "19.9".toList, "1".toList⟩] ∧
    (workerMain Fixed2 (fun _ => payEnv 422) 5 (startRun Fixed2 (samplePayment 0))).store.ledger
      = [] := by
  decide

end PaymentGateway
